import Mathlib

/-!
# Verification development for the `night` video indexer

Shallow embedding of the scanner, cache, sampling policy, aspect-fit, sprite
compositor and progress-relay code (`scanner.go`, `video.go`, `utils.go`).

Modelling conventions

* Go `int` and `time.Duration` values are integers (`Int`); Go's `/` on them is
  truncating division (`Int.tdiv`). The products in `AdjustAspectRatio`, in the
  branch test of `GenVideoPreview` and in `Collect` wrap to 64 bits as in Go
  (`mul64`); the remaining arithmetic (cell coordinates, grid capacity,
  centring offsets) is exact.
* `time.Time` is a natural number, the instant; `zeroTime` is the zero value a
  Go map returns for a missing key.
* A Go `map[string]T` is an association list read through `GoMap.get?`.
* A `*T` that may be nil is an `Option T`.
* A runtime panic (nil dereference, index out of range, division by zero) is
  the result `none`, or `Outcome.panicked` where the call can also return an
  error.
-/

namespace Night

/-! ## Go maps -/

/-- Association-list model of a Go `map[string]V`. -/
abbrev GoMap (V : Type) := List (String × V)

namespace GoMap

variable {V : Type}

/-- Model of `m[k]` with the comma-ok result folded into an `Option`. -/
def get? : GoMap V → String → Option V
  | [], _ => none
  | (k', v) :: m, k => if k' = k then some v else get? m k

/-- Model of `delete(m, k)`. -/
def erase (m : GoMap V) (k : String) : GoMap V :=
  m.filter (fun e => decide (e.1 ≠ k))

/-- Model of `m[k] = v`. -/
def set (m : GoMap V) (k : String) (v : V) : GoMap V :=
  (k, v) :: erase m k

/-- Keys met by `for k := range m`. -/
def keys (m : GoMap V) : List String :=
  m.map Prod.fst

end GoMap

/-! ## Data model (`video.go`) -/

/-- Model of `time.Time`: the instant. Go compares two `time.Time` values with
`==`, which also looks at the location; two values of one instant are taken to
have one location. -/
abbrev Time := Nat

/-- Zero value of `time.Time`. -/
def zeroTime : Time := 0

/-- Model of `ThumbSprite`. -/
structure ThumbSprite where
  Path : String
  Width : Int
  Height : Int
  ThumbWidth : Int
  ThumbHeight : Int
  Count : Int
  deriving DecidableEq, Repr

/-- Model of `VideoPreview`. -/
structure VideoPreview where
  Cover : String
  Thumbs : Option ThumbSprite
  deriving DecidableEq, Repr

/-- Model of `Video`. -/
structure Video where
  Name : String
  Path : String
  Duration : Int
  Width : Int
  Height : Int
  Preview : Option VideoPreview
  deriving DecidableEq, Repr

/-! ## File system seen by the scanner (`utils.go`) -/

/-- The two file-system observations the cache code makes: `os.Stat` success
(`IsFileExists`) and the content sniff (`IsVideo`). -/
structure FileSystem where
  IsFileExists : String → Bool
  IsVideo : String → Bool

/-- File system after the file at `p` has been deleted. -/
def FileSystem.remove (fs : FileSystem) (p : String) : FileSystem :=
  { fs with IsFileExists := fun q => if q = p then false else fs.IsFileExists q }

/-! ## Cache store (`scanner.go`) -/

/-- Model of `cacheInfo`. A stored nil `*Video` is the value `none`. -/
structure cacheInfo where
  Mod : GoMap Time
  Videos : GoMap (Option Video)
  deriving DecidableEq, Repr

namespace cacheInfo

/-- Model of `c.Videos[path]`: nil for a missing key and for a stored nil. -/
def videoAt (c : cacheInfo) (path : String) : Option Video :=
  (c.Videos.get? path).join

/-- Model of `cacheInfo.ModTime`. -/
def ModTime (c : cacheInfo) (path : String) : Time :=
  (c.Mod.get? path).getD zeroTime

/-- Model of `cacheInfo.AddModTime`. -/
def AddModTime (c : cacheInfo) (path : String) (time : Time) : cacheInfo :=
  { c with Mod := c.Mod.set path time }

/-- Model of `cacheInfo.AddVideo`. -/
def AddVideo (c : cacheInfo) (video : Video) : cacheInfo :=
  { c with Videos := c.Videos.set video.Path (some video) }

/-- Model of `cacheInfo.RemoveVideo`. -/
def RemoveVideo (c : cacheInfo) (path : String) : cacheInfo :=
  { c with Videos := c.Videos.erase path }

/-- Model of `cacheInfo.RemoveNotExistVideos`: the loop ranges over the keys of
`Videos` and deletes the key from both maps when `IsFileExists` fails. -/
def RemoveNotExistVideos (fs : FileSystem) (c : cacheInfo) : cacheInfo :=
  c.Videos.keys.foldl
    (fun c k =>
      if !fs.IsFileExists k then
        { Mod := c.Mod.erase k, Videos := c.Videos.erase k }
      else c)
    c

/-- The pruning loop run over an arbitrary list of keys. -/
def pruneKeys (fs : FileSystem) (ks : List String) (c : cacheInfo) : cacheInfo :=
  ks.foldl
    (fun c k =>
      if !fs.IsFileExists k then
        { Mod := c.Mod.erase k, Videos := c.Videos.erase k }
      else c)
    c

/-- Model of `cacheInfo.IsExists`. -/
def IsExists (fs : FileSystem) (c : cacheInfo) (path : String) : Bool :=
  match c.videoAt path with
  | none => false
  | some v =>
    match v.Preview with
    | none => false
    | some pv =>
      match pv.Thumbs with
      | none => false
      | some th => fs.IsFileExists pv.Cover && fs.IsFileExists th.Path

/-- Model of `cacheInfo.IsEmpty`. -/
def IsEmpty (c : cacheInfo) : Bool :=
  c.Mod.keys.length ≤ 0 && c.Videos.keys.length ≤ 0

end cacheInfo

/-! ## Directory walk (`filepath.Walk`) and the scanner callback -/

/-- Model of the `os.FileInfo` fields the scanner reads. -/
structure FileInfo where
  IsDir : Bool
  ModTime : Time
  deriving DecidableEq, Repr

/-- A file tree as `filepath.Walk` meets it. `broken` is an entry whose `Lstat`
fails; `readErr` says that listing the directory fails. -/
inductive FsNode where
  | file (path : String) (modTime : Time)
  | dir (path : String) (modTime : Time) (readErr : Bool) (children : List FsNode)
  | broken (path : String)

/-- State threaded through one scan: the global `cache`, the local slice
`videos` and the number of callback invocations made so far. -/
structure ScanState where
  cache : cacheInfo
  videos : List String
  visited : Nat
  deriving DecidableEq, Repr

/-- Model of the closure passed to `filepath.Walk` in `ScanVideos`.
`info = none` stands for a call with `err != nil`. The result flag is `true`
for `filepath.SkipDir` and `false` for `nil`. -/
def walkFn (fs : FileSystem) (canceled : Bool) (cache : cacheInfo) (videos : List String)
    (path : String) (info : Option FileInfo) : cacheInfo × List String × Bool :=
  if canceled then (cache, videos, true)
  else
    match info with
    | none => (cache, videos, false)
    | some info =>
      if info.IsDir then
        if info.ModTime = cache.ModTime path then (cache, videos, true)
        else (cache, videos, false)
      else if !fs.IsVideo path then (cache, videos, false)
      else if !cache.IsExists fs path then
        (cache.AddModTime path info.ModTime, videos ++ [path], false)
      else if info.ModTime = cache.ModTime path then (cache, videos, false)
      else (cache.RemoveVideo path, videos ++ [path], false)

/-- One callback invocation on the scan state; `canceled k` is what
`Canceled(ctx)` answers at invocation number `k`. -/
def visit (fs : FileSystem) (canceled : Nat → Bool) (st : ScanState)
    (path : String) (info : Option FileInfo) : ScanState × Bool :=
  let r := walkFn fs (canceled st.visited) st.cache st.videos path info
  ({ cache := r.1, videos := r.2.1, visited := st.visited + 1 }, r.2.2)

/-- Model of `filepath.walk`: the flag is `true` when the result is `SkipDir`. -/
def walk (fs : FileSystem) (canceled : Nat → Bool) : ScanState → FsNode → ScanState × Bool
  | st, .file path modTime => visit fs canceled st path (some ⟨false, modTime⟩)
  | st, .broken path => visit fs canceled st path none
  | st, .dir path modTime readErr children =>
    let r := visit fs canceled st path (if readErr then none else some ⟨true, modTime⟩)
    if readErr || r.2 then r else walkChildren r.1 children
where
  /-- The loop over the names of a directory. -/
  walkChildren : ScanState → List FsNode → ScanState × Bool
    | st, [] => (st, false)
    | st, child :: rest =>
      match child with
      | .broken path => walkChildren (visit fs canceled st path none).1 rest
      | .dir path modTime readErr children =>
        walkChildren (walk fs canceled st (.dir path modTime readErr children)).1 rest
      | .file path modTime =>
        let r := walk fs canceled st (.file path modTime)
        if r.2 then r else walkChildren r.1 rest

/-- Model of `filepath.Walk`: `SkipDir` from the root is turned into `nil`. -/
def Walk (fs : FileSystem) (canceled : Nat → Bool) (st : ScanState) (root : FsNode) : ScanState :=
  (walk fs canceled st root).1

/-- The empty cache the process starts with. -/
def emptyCache : cacheInfo := { Mod := [], Videos := [] }

/-- Model of the scanning part of `ScanVideos`. `loaded` is the content of the
cache file when it exists and parses; every root of `videoDirs` is walked in
turn. The result is the cache after the walk and the dirty list `videos`. -/
def ScanVideos (fs : FileSystem) (canceled : Nat → Bool) (loaded : Option cacheInfo)
    (videoDirs : List FsNode) : cacheInfo × List String :=
  let cache :=
    match loaded with
    | some c => c.RemoveNotExistVideos fs
    | none => emptyCache
  let st := videoDirs.foldl (Walk fs canceled) { cache := cache, videos := [], visited := 0 }
  (st.cache, st.videos)

/-- Model of `addCacheVideo`, cache side. -/
def addCacheVideo (cache : cacheInfo) (video : Video) : cacheInfo :=
  cache.AddVideo video

/-- Model of the loop of `genVideoInfoWork`: `gen path` is the outcome of
`genVideoInfo` for a dirty path, committed only on success. -/
def genVideoInfoWork (gen : String → Option Video) (cache : cacheInfo)
    (videos : List String) : cacheInfo :=
  videos.foldl
    (fun c v =>
      match gen v with
      | some video => addCacheVideo c video
      | none => c)
    cache

/-- Model of `cacheInfo.Write` followed by a later `cacheInfo.Read`: an empty
cache is not written, so the file keeps its former content `old`. What is read
back is taken to be what was written, the times included. -/
def writeCache (cache : cacheInfo) (old : Option cacheInfo) : Option cacheInfo :=
  if cache.IsEmpty then old else some cache

/-! ## Aspect fit and thumbnail placement (`video.go`) -/

/-- Go integer division: truncates towards zero, panics on a zero divisor. -/
def goDiv (a b : Int) : Option Int :=
  if b = 0 then none else some (a.tdiv b)

/-- The 64-bit two's complement value of an integer: the representative of
`x` modulo `2^64` between `-2^63` and `2^63 - 1`. -/
def wrap64 (x : Int) : Int :=
  (x + 2 ^ 63) % 2 ^ 64 - 2 ^ 63

/-- Go multiplication of two `int` (or `int64`) values: the product wraps. -/
def mul64 (a b : Int) : Int :=
  wrap64 (a * b)

/-- Model of `AdjustAspectRatio`. -/
def AdjustAspectRatio (width height tw th : Int) : Option (Int × Int) := do
  let q ← goDiv (mul64 tw height) th
  if width > q then
    let adjustW := tw
    let adjustH ← goDiv (mul64 adjustW height) width
    pure (adjustW, adjustH)
  else
    let q' ← goDiv (mul64 th width) tw
    if height > q' then
      let adjustH := th
      let adjustW ← goDiv (mul64 adjustH width) height
      pure (adjustW, adjustH)
    else
      pure (tw, th)

/-- Model of `image.Rectangle`. -/
structure Rectangle where
  MinX : Int
  MinY : Int
  MaxX : Int
  MaxY : Int
  deriving DecidableEq, Repr

/-- Model of `image.Rect`, which orders the corner coordinates. -/
def Rect (x0 y0 x1 y1 : Int) : Rectangle :=
  { MinX := if x0 > x1 then x1 else x0
    MinY := if y0 > y1 then y1 else y0
    MaxX := if x0 > x1 then x0 else x1
    MaxY := if y0 > y1 then y0 else y1 }

/-- Model of `Rectangle.Dx`. -/
def Rectangle.Dx (r : Rectangle) : Int := r.MaxX - r.MinX

/-- Model of `Rectangle.Dy`. -/
def Rectangle.Dy (r : Rectangle) : Int := r.MaxY - r.MinY

/-- Which of the three placements `drawThumb` takes. -/
inductive Centring where
  | vertical
  | horizontal
  | fill
  deriving DecidableEq, Repr

/-- The placement test of `drawThumb`: cell size against the fitted size. -/
def drawThumbCentring (thumbWidth thumbHeight adjustW adjustH : Int) : Centring :=
  if thumbHeight > adjustH then .vertical
  else if thumbWidth > adjustW then .horizontal
  else .fill

/-- Geometry of `drawThumb`: the destination rectangle for a frame whose decoded
size is `configWidth x configHeight`, drawn into the cell `r`. -/
def drawThumbRect (r : Rectangle) (configWidth configHeight : Int) : Option Rectangle := do
  let thumbWidth := r.Dx
  let thumbHeight := r.Dy
  let (adjustW, adjustH) ← AdjustAspectRatio configWidth configHeight thumbWidth thumbHeight
  match drawThumbCentring thumbWidth thumbHeight adjustW adjustH with
  | .vertical =>
    let dy := (thumbHeight - adjustH).tdiv 2
    pure (Rect r.MinX (r.MinY + dy) r.MaxX (r.MaxY - dy))
  | .horizontal =>
    let dx := (thumbWidth - adjustW).tdiv 2
    pure (Rect (r.MinX + dx) r.MinY (r.MaxX - dx) r.MaxY)
  | .fill => pure r

/-! ## Sampling rate (`GenVideoPreview`) -/

/-- Model of `time.Second`, in nanoseconds. -/
def Second : Int := 1000000000

/-- Model of `time.Microsecond`, in nanoseconds. -/
def Microsecond : Int := 1000

/-- Model of `PreviewConfig`. -/
structure PreviewConfig where
  spf : Int
  maxF : Int
  width : Int
  height : Int
  cW : Int
  cH : Int
  perW : Int
  perH : Int
  deriving DecidableEq, Repr

/-- The two integers `GenVideoPreview` prints into `fps` with `"%d/%d"`:
numerator and denominator of the sampling rate in frames per second. -/
def fps (duration : Int) (pc : PreviewConfig) : Int × Int :=
  if mul64 (mul64 pc.spf pc.maxF) Second > duration then (1, pc.spf)
  else (pc.maxF, duration.tdiv Second)

/-- The `fps` string itself. -/
def fpsString (duration : Int) (pc : PreviewConfig) : String :=
  toString (fps duration pc).1 ++ "/" ++ toString (fps duration pc).2

/-- Exact value of the printed rate. -/
def fpsValue (duration : Int) (pc : PreviewConfig) : ℚ :=
  ((fps duration pc).1 : ℚ) / ((fps duration pc).2 : ℚ)

/-- Duration in seconds as an exact rational. -/
def seconds (duration : Int) : ℚ :=
  (duration : ℚ) / (Second : ℚ)

/-- Number of frames the rate yields over the whole duration, as an exact
rational: rate times duration in seconds. -/
def frameCount (duration : Int) (pc : PreviewConfig) : ℚ :=
  fpsValue duration pc * seconds duration

/-- The configuration `genVideoInfo` passes, for a fitted cover size. -/
def defaultConfig (cw ch : Int) : PreviewConfig :=
  { spf := 5, maxF := 100, width := 1600, height := 900, cW := cw, cH := ch, perW := 160, perH := 90 }

/-! ## Progress relay (`video.go`) -/

/-- Model of `strings.Split(s, sep)` for a one-character separator, on the
characters of the string. The result is never empty. -/
def splitChars (sep : Char) : List Char → List (List Char)
  | [] => [[]]
  | c :: cs =>
    if c = sep then [] :: splitChars sep cs
    else
      match splitChars sep cs with
      | [] => [[c]]
      | f :: fs => (c :: f) :: fs

/-- Model of `strings.Split(kv, "=")`. -/
def Split (kv : String) : List String :=
  (splitChars '=' kv.toList).map String.mk

/-- Model of `unicode.IsSpace`. -/
def isSpace (c : Char) : Bool :=
  let n := c.toNat
  n = 0x09 || n = 0x0A || n = 0x0B || n = 0x0C || n = 0x0D || n = 0x20 || n = 0x85 || n = 0xA0
    || n = 0x1680 || (0x2000 ≤ n && n ≤ 0x200A) || n = 0x2028 || n = 0x2029 || n = 0x202F
    || n = 0x205F || n = 0x3000

/-- Model of `strings.TrimSpace`. -/
def TrimSpace (s : String) : String :=
  String.mk ((s.toList.dropWhile isSpace).reverse.dropWhile isSpace).reverse

/-- Value of a decimal digit. -/
def digitVal (c : Char) : Option Nat :=
  if 48 ≤ c.toNat ∧ c.toNat ≤ 57 then some (c.toNat - 48) else none

/-- Value of a string of decimal digits, continuing from `acc`. -/
def parseDigits : List Char → Nat → Option Nat
  | [], acc => some acc
  | c :: cs, acc =>
    match digitVal c with
    | some d => parseDigits cs (acc * 10 + d)
    | none => none

/-- Model of `strconv.ParseInt(s, 10, 64)`, `none` for every error: an optional
sign, at least one decimal digit, and a value inside the signed 64-bit range. -/
def ParseInt (s : String) : Option Int :=
  match s.toList with
  | [] => none
  | c :: cs =>
    let neg := decide (c = '-')
    let ds := if c = '+' ∨ c = '-' then cs else c :: cs
    match ds with
    | [] => none
    | d :: ds' =>
      match parseDigits (d :: ds') 0 with
      | none => none
      | some n =>
        if neg then (if n ≤ 2 ^ 63 then some (-(n : Int)) else none)
        else (if n < 2 ^ 63 then some (n : Int) else none)

/-- What the relay needs of `float64`: a carrier, its zero value and the
successful results of `strconv.ParseFloat(s, 64)`. -/
structure Float64Model where
  F : Type
  zero : F
  ParseFloat : String → Option F

/-- Model of `Progress`. -/
structure Progress (fm : Float64Model) where
  Duration : Int
  OutTime : Int
  Speed : fm.F

/-- Model of `progressCollector`. -/
structure progressCollector (fm : Float64Model) where
  duration : Int
  progress : Option (Progress fm)

/-- The accumulator after the nil check at the head of `Collect`. -/
def progressCollector.current {fm : Float64Model} (p : progressCollector fm) : Progress fm :=
  match p.progress with
  | some pr => pr
  | none => { Duration := p.duration, OutTime := 0, Speed := fm.zero }

/-- Model of `ss[:len(ss)-1]` followed by `strconv.ParseFloat`: `none` is the
slice panic on an empty string; `some none` is a parse error. The slice drops
one byte, so when the last character is not ASCII the remainder is a cut
UTF-8 sequence, which never parses. -/
def parseSpeed (fm : Float64Model) (ss : String) : Option (Option fm.F) :=
  match ss.toList.getLast? with
  | none => none
  | some c =>
    if c.toNat < 128 then some (fm.ParseFloat (String.mk ss.toList.dropLast))
    else some none

/-- Model of `progressCollector.Collect`. The outer `none` is a runtime panic;
the inner option is the pair `(*Progress, bool)`: `some pr` for `(pr, true)`,
`none` for `(nil, false)`. -/
def Collect (fm : Float64Model) (p : progressCollector fm) (kv : String) :
    Option (progressCollector fm × Option (Progress fm)) :=
  let cur := p.current
  let s := Split kv
  let key := s.headD ""
  if key = "out_time_ms" then
    match s.get? 1 with
    | none => none
    | some v =>
      match ParseInt (TrimSpace v) with
      | some ot =>
        some ({ p with progress := some { cur with OutTime := mul64 ot Microsecond } }, none)
      | none => some ({ p with progress := some cur }, none)
  else if key = "speed" then
    match s.get? 1 with
    | none => none
    | some v =>
      match parseSpeed fm (TrimSpace v) with
      | none => none
      | some (some speed) => some ({ p with progress := some { cur with Speed := speed } }, none)
      | some none => some ({ p with progress := some cur }, none)
  else if key = "progress" then
    some ({ p with progress := none }, some cur)
  else
    some ({ p with progress := some cur }, none)

/-- Feeding consecutive lines to one collector: the results line by line, or
`none` when some call panics. -/
def feed (fm : Float64Model) :
    progressCollector fm → List String → Option (progressCollector fm × List (Option (Progress fm)))
  | p, [] => some (p, [])
  | p, kv :: rest =>
    match Collect fm p kv with
    | none => none
    | some (p', r) =>
      match feed fm p' rest with
      | none => none
      | some (p'', rs) => some (p'', r :: rs)

/-- Model of `ProgressSource`. The callback acts on an observer state `σ`; a
nil callback is `none`. -/
structure ProgressSource (fm : Float64Model) (σ : Type) where
  Duration : Int
  ProgressCb : Option (Progress fm → σ → σ)

/-- Model of `ProgressServer`, the armed source only. -/
structure ProgressServer (fm : Float64Model) (σ : Type) where
  source : Option (ProgressSource fm σ)

/-- Model of `ProgressServer.SetProgressSource`. -/
def ProgressServer.SetProgressSource {fm : Float64Model} {σ : Type} (_p : ProgressServer fm σ)
    (source : Option (ProgressSource fm σ)) : ProgressServer fm σ :=
  { source := source }

/-- Model of `ProgressServer.NextProgressSource`: hands out the armed source
and disarms the server. -/
def ProgressServer.NextProgressSource {fm : Float64Model} {σ : Type} (p : ProgressServer fm σ) :
    Option (ProgressSource fm σ) × ProgressServer fm σ :=
  (p.source, { source := none })

/-- The read loop of `progressFn`. `reads` are the results of the successful
`ReadLine` calls, each a chunk and its continuation flag; the read after the
last one fails. `pending` is the variable that collects the chunks of a long
line. The result is the observer state at return, `none` for a panic. -/
def progressLoop (fm : Float64Model) {σ : Type} (source : ProgressSource fm σ) :
    String → progressCollector fm → σ → List (String × Bool) → Option σ
  | _, _, obs, [] => some obs
  | pending, pc, obs, (line, more) :: rest =>
    if more then progressLoop fm source (pending ++ line) pc obs rest
    else
      match Collect fm pc (pending ++ line) with
      | none => none
      | some (pc', none) => progressLoop fm source "" pc' obs rest
      | some (pc', some pr) =>
        match source.ProgressCb with
        | none => none
        | some cb => progressLoop fm source "" pc' (cb pr obs) rest

/-- Model of `progressFn(conn, source)`: the first statement after the reader
is set up reads `source.Duration`, which panics on a nil source. -/
def progressFn (fm : Float64Model) {σ : Type} (source : Option (ProgressSource fm σ))
    (reads : List (String × Bool)) (obs : σ) : Option σ :=
  match source with
  | none => none
  | some src => progressLoop fm src "" { duration := src.Duration, progress := none } obs reads

/-- One turn of the accept loop: the handler runs with whatever
`NextProgressSource` hands out. -/
def acceptOne (fm : Float64Model) {σ : Type} (p : ProgressServer fm σ)
    (reads : List (String × Bool)) (obs : σ) : Option σ × ProgressServer fm σ :=
  (progressFn fm p.NextProgressSource.1 reads obs, p.NextProgressSource.2)

/-! ## Reference reading of the progress protocol -/

/-- Key of a line: the text before the first `=`, the whole line when it has
none. -/
def lineKey (kv : String) : String :=
  String.mk (kv.toList.takeWhile (fun c => decide (c ≠ '=')))

/-- The text after the first `=` of a line, empty when it has none. -/
def afterFirstEq (kv : String) : List Char :=
  (kv.toList.dropWhile (fun c => decide (c ≠ '='))).drop 1

/-- Value of a line as the specification reads it: all the text after the first
`=`. -/
def specValue (kv : String) : String :=
  String.mk (afterFirstEq kv)

/-- Value of a line as `Collect` reads it: the text between the first `=` and
the next one (or the end of the line), without surrounding white space. -/
def lineValue (kv : String) : String :=
  TrimSpace (String.mk ((afterFirstEq kv).takeWhile (fun c => decide (c ≠ '='))))

/-- A line that can be decoded without a failed index or slice: an
`out_time_ms` or `speed` line has a `=`, and the value of a `speed` line is not
empty. -/
def SafeLine (kv : String) : Prop :=
  (lineKey kv = "out_time_ms" ∨ lineKey kv = "speed" → '=' ∈ kv.toList) ∧
  (lineKey kv = "speed" → (lineValue kv).toList ≠ [])

/-- Elapsed time carried by a line: an `out_time_ms` value that parses as a
64-bit integer, read as microseconds and held as 64-bit nanoseconds. -/
def outTimeOf (kv : String) : Option Int :=
  if lineKey kv = "out_time_ms" then
    (ParseInt (lineValue kv)).map (fun ot => wrap64 (ot * Microsecond))
  else none

/-- A value with its trailing `x` removed. -/
def stripTrailingX (v : String) : String :=
  if v.toList.getLast? = some 'x' then String.mk v.toList.dropLast else v

/-- A value without its last byte; `none` when the value is empty, and when the
byte cut off belongs to a longer character, so that what remains is not text. -/
def withoutLastByte (v : String) : Option String :=
  match v.toList.getLast? with
  | none => none
  | some c => if c.toNat < 128 then some (String.mk v.toList.dropLast) else none

/-- Speed carried by a line: a `speed` value that parses once its last byte is
removed, whatever that byte is. -/
def speedOf (fm : Float64Model) (kv : String) : Option fm.F :=
  if lineKey kv = "speed" then (withoutLastByte (lineValue kv)).bind fm.ParseFloat else none

/-- The lines received since the previous snapshot, given all lines received
so far. -/
def sinceSnapshot (received : List String) : List String :=
  (received.reverse.takeWhile (fun l => decide (lineKey l ≠ "progress"))).reverse

/-- Last elapsed time among the lines, zero if none. -/
def lastOutTime (lines : List String) : Int :=
  ((lines.filterMap outTimeOf).getLast?).getD 0

/-- Last speed among the lines, zero if none. -/
def lastSpeed (fm : Float64Model) (lines : List String) : fm.F :=
  ((lines.filterMap (speedOf fm)).getLast?).getD fm.zero

/-- The snapshot due after the lines `received`, for job duration `d`. -/
def expectedSnapshot (fm : Float64Model) (d : Int) (received : List String) : Progress fm :=
  { Duration := d
    OutTime := lastOutTime (sinceSnapshot received)
    Speed := lastSpeed fm (sinceSnapshot received) }

/-- What `Collect` is to return on line `kv` after the lines `received`. -/
def expectedResult (fm : Float64Model) (d : Int) (received : List String) (kv : String) :
    Option (Progress fm) :=
  if lineKey kv = "progress" then some (expectedSnapshot fm d received) else none

/-- Reading of a plain decimal numeral `ddd` or `ddd.ddd` as the pair of its
digits taken as one number and the count of fraction digits. -/
def parseDecimal (s : String) : Option (Int × Nat) :=
  let whole := s.toList.takeWhile (fun c => decide (c ≠ '.'))
  let frac := (s.toList.dropWhile (fun c => decide (c ≠ '.'))).drop 1
  match whole ++ frac with
  | [] => none
  | ds => (parseDigits ds 0).map (fun n => ((n : Int), frac.length))

/-- A sample float model for running the relay on concrete lines: decimal
numerals read exactly, as mantissa and number of fraction digits. -/
def decimalModel : Float64Model :=
  { F := Int × Nat, zero := (0, 0), ParseFloat := parseDecimal }

/-! ## Concrete inputs -/

/-- A video file of the scanned tree. -/
def sampleVideoPath : String := "/videos/a.mp4"

/-- Artifacts of `sampleVideoPath` as one generation run records them. -/
def sampleRecord : Video :=
  { Name := "a", Path := "/videos/a.mp4", Duration := 90 * Second, Width := 800, Height := 600
    Preview := some
      { Cover := "/cache/001/cover.jpg"
        Thumbs := some
          { Path := "/cache/001/thumbs.jpg", Width := 1600, Height := 900
            ThumbWidth := 160, ThumbHeight := 90, Count := 18 } } }

/-- A disk holding the video, its directory and both artifacts. -/
def sampleDisk : FileSystem :=
  { IsFileExists := fun p =>
      p = "/videos" || p = "/videos/a.mp4" || p = "/cache/001/cover.jpg"
        || p = "/cache/001/thumbs.jpg"
    IsVideo := fun p => p = "/videos/a.mp4" }

/-- The scanned tree: one directory with the video, last modified at time 20. -/
def sampleTree : FsNode :=
  .dir "/videos" 7 false [.file "/videos/a.mp4" 20]

/-- A cache file with a complete entry for the video, recorded when its
modification time was 10. -/
def sampleCache : cacheInfo :=
  { Mod := [("/videos/a.mp4", 10)], Videos := [("/videos/a.mp4", some sampleRecord)] }

/-- The progress lines of the specification example. -/
def sampleLines : List String :=
  ["out_time_ms=1800000000", "speed=25.6x", "progress=continue"]

/-- Progress lines as the transcode tool sends them at the start of a job,
followed by a second report whose speed has no unit letter. -/
def mixedLines : List String :=
  ["frame=1", "speed=N/A", "out_time_ms=1800000000", "speed=25.6x", "progress=continue",
    "speed=12", "progress=end"]

/-- A context that is never cancelled. -/
def neverCanceled : Nat → Bool := fun _ => false

/-- A cache with a timestamp for a path that has no record. -/
def orphanCache : cacheInfo :=
  { Mod := [("/videos/gone.mp4", 5)], Videos := [] }

/-- A configuration whose `spf * maxF` seconds, taken in nanoseconds, is
`10^19` and so outside the 64-bit range. -/
def overflowConfig : PreviewConfig :=
  { spf := 100000, maxF := 100000, width := 1600, height := 900, cW := 412, cH := 232
    perW := 160, perH := 90 }

/-- A disk on which nothing exists. -/
def emptyDisk : FileSystem :=
  { IsFileExists := fun _ => false, IsVideo := fun _ => false }

/-! ## Sprite compositor and preview generation (`video.go`) -/

/-- How a Go call ends: with a value and a nil error, with a non-nil error, or
in a runtime panic. -/
inductive Outcome (α : Type) where
  | ok (a : α)
  | failed
  | panicked
  deriving DecidableEq, Repr

/-- The value of a call that ended with a nil error. -/
def Outcome.value? {α : Type} : Outcome α → Option α
  | .ok a => some a
  | .failed => none
  | .panicked => none

/-- Go integer remainder: truncated, panics on a zero divisor. -/
def goMod (a b : Int) : Option Int :=
  if b = 0 then none else some (a.tmod b)

/-- What can be read from the frame files: `DecodeConfig path` is the size that
`os.Open` and `image.DecodeConfig` yield, `none` when either fails; `Decode path`
says whether `image.Decode` succeeds; `WriteSheet out` says whether the sheet
file can be created and encoded at `out`. -/
structure ImageFiles where
  DecodeConfig : String → Option (Int × Int)
  Decode : String → Bool
  WriteSheet : String → Bool

/-- One call of `draw.Draw` made by `drawThumb`: the frame file, the cell it was
given and the rectangle it is drawn into. -/
structure DrawOp where
  thumbPath : String
  cell : Rectangle
  dstRect : Rectangle
  deriving DecidableEq, Repr

/-- Model of `drawThumb`. A failed division inside `AdjustAspectRatio` is a
panic; it comes after the size is read and before the frame is decoded. -/
def drawThumb (img : ImageFiles) (r : Rectangle) (thumbPath : String) : Outcome DrawOp :=
  match img.DecodeConfig thumbPath with
  | none => .failed
  | some (configWidth, configHeight) =>
    match drawThumbRect r configWidth configHeight with
    | none => .panicked
    | some dstRect =>
      if img.Decode thumbPath then .ok { thumbPath := thumbPath, cell := r, dstRect := dstRect }
      else .failed

/-- The rectangle `videoThumbnailsSprite` builds for frame `i`: column
`i % cols`, row `i / cols`, cells of `thumbWidth` by `thumbHeight`. -/
def cellRect (thumbWidth thumbHeight cols : Int) (i : Nat) : Option Rectangle := do
  let col ← goMod (i : Int) cols
  let row ← goDiv (i : Int) cols
  pure (Rect (col * thumbWidth) (row * thumbHeight) ((col + 1) * thumbWidth)
    ((row + 1) * thumbHeight))

/-- One turn of the drawing loop of `videoThumbnailsSprite`. -/
def drawFrame (img : ImageFiles) (thumbs : List String) (thumbWidth thumbHeight cols : Int)
    (i : Nat) : Outcome DrawOp :=
  match cellRect thumbWidth thumbHeight cols i with
  | none => .panicked
  | some rect =>
    match thumbs.get? i with
    | none => .panicked
    | some thumb => drawThumb img rect thumb

/-- The drawing loop of `videoThumbnailsSprite` over the indices `is`: it stops
at the first frame that is not drawn. -/
def drawLoop (img : ImageFiles) (thumbs : List String) (thumbWidth thumbHeight cols : Int) :
    List Nat → Outcome (List DrawOp)
  | [] => .ok []
  | i :: rest =>
    match drawFrame img thumbs thumbWidth thumbHeight cols i with
    | .failed => .failed
    | .panicked => .panicked
    | .ok d =>
      match drawLoop img thumbs thumbWidth thumbHeight cols rest with
      | .failed => .failed
      | .panicked => .panicked
      | .ok ds => .ok (d :: ds)

/-- Number of frames `videoThumbnailsSprite` uses: the smaller of the grid
capacity and the number of frames. -/
def spriteNums (rows cols : Int) (thumbs : List String) : Int :=
  min (rows * cols) (thumbs.length : Int)

/-- Model of `videoThumbnailsSprite`: the returned descriptor together with the
draw calls made on the canvas, in order. -/
def videoThumbnailsSprite (img : ImageFiles) (thumbs : List String) (out : String)
    (width height rows cols : Int) : Outcome (ThumbSprite × List DrawOp) :=
  let nums := spriteNums rows cols thumbs
  match goDiv width cols, goDiv height rows with
  | some thumbWidth, some thumbHeight =>
    match drawLoop img thumbs thumbWidth thumbHeight cols (List.range nums.toNat) with
    | .failed => .failed
    | .panicked => .panicked
    | .ok draws =>
      if img.WriteSheet out then
        .ok ({ Path := out, Width := width, Height := height, ThumbWidth := thumbWidth
               ThumbHeight := thumbHeight, Count := nums }, draws)
      else .failed
  | _, _ => .panicked

/-- Model of `filepath.Join` on a directory path that is already clean (no
trailing separator, no `.` or `..` element) and a plain name. -/
def Join (dir name : String) : String :=
  dir ++ "/" ++ name

/-- What a run of the frame extraction leaves behind: whether the frame
directory could be made, whether the transcode tool ended without error, and
the names `ioutil.ReadDir` lists in the frame directory, `none` when the
listing fails. -/
structure FrameDir where
  mkdirOk : Bool
  ffmpegOk : Bool
  entries : Option (List String)

/-- The outside world of one preview generation. -/
structure World where
  runFfmpeg : String → String → String → Int → Int → FrameDir
  copyOk : String → String → Bool
  img : ImageFiles

/-- Model of `sort.Strings`. -/
def sortStrings (l : List String) : List String :=
  l.insertionSort (fun a b => ¬ b < a)

/-- Model of `videoThumbnails`: the sorted paths of the extracted frames, `none`
for an error. -/
def videoThumbnails (w : World) (path thumbDir fpsArg : String) (width height : Int) :
    Option (List String) :=
  let run := w.runFfmpeg path thumbDir fpsArg width height
  if !run.mkdirOk then none
  else if !run.ffmpegOk then none
  else
    match run.entries with
    | none => none
    | some names => some (sortStrings (names.map (Join thumbDir)))

/-- What a successful `GenVideoPreview` has done: the preview it returns, the
frame it copied to the cover, and the draw calls on the sheet. -/
structure PreviewResult where
  preview : VideoPreview
  coverSource : String
  draws : List DrawOp
  deriving DecidableEq, Repr

/-- Model of `GenVideoPreview`. -/
def GenVideoPreview (w : World) (duration : Int) (path outDir : String) (pc : PreviewConfig) :
    Outcome PreviewResult :=
  let thumbDir := Join outDir "thumbs"
  match videoThumbnails w path thumbDir (fpsString duration pc) pc.cW pc.cH with
  | none => .failed
  | some thumbs =>
    let cover := Join outDir "cover.jpg"
    match thumbs.get? (thumbs.length / 2) with
    | none => .panicked
    | some middle =>
      if !w.copyOk middle cover then .failed
      else
        match goDiv pc.width pc.perW, goDiv pc.height pc.perH with
        | some rows, some cols =>
          match videoThumbnailsSprite w.img thumbs (Join outDir "thumbs.jpg") pc.width pc.height
              rows cols with
          | .failed => .failed
          | .panicked => .panicked
          | .ok (vts, draws) =>
            .ok { preview := { Cover := cover, Thumbs := some vts }, coverSource := middle
                  draws := draws }
        | _, _ => .panicked

/-- The cell of the grid for frame `i`, as the specification words it: row
`i / cols`, column `i % cols`, cells of `thumbWidth` by `thumbHeight`, with
floor division and remainder. -/
def gridCell (thumbWidth thumbHeight cols : Int) (i : Nat) : Rectangle :=
  { MinX := ((i : Int) % cols) * thumbWidth
    MinY := ((i : Int) / cols) * thumbHeight
    MaxX := ((i : Int) % cols + 1) * thumbWidth
    MaxY := ((i : Int) / cols + 1) * thumbHeight }

/-! ## Concrete inputs for the compositor -/

/-- Frame files that all decode to 160 by 90 and a sheet that can be written. -/
def goodFrames : ImageFiles :=
  { DecodeConfig := fun _ => some (160, 90), Decode := fun _ => true, WriteSheet := fun _ => true }

/-- Frame files that cannot be opened. -/
def brokenFrames : ImageFiles :=
  { DecodeConfig := fun _ => none, Decode := fun _ => false, WriteSheet := fun _ => true }

/-- Twelve frame paths. -/
def twelveFrames : List String :=
  ["t01", "t02", "t03", "t04", "t05", "t06", "t07", "t08", "t09", "t10", "t11", "t12"]

/-- Five frame paths. -/
def fiveFrames : List String :=
  ["t01", "t02", "t03", "t04", "t05"]

/-- A world in which the extraction ends without error and leaves no frame. -/
def noFrameWorld : World :=
  { runFfmpeg := fun _ _ _ _ _ => { mkdirOk := true, ffmpegOk := true, entries := some [] }
    copyOk := fun _ _ => true
    img := goodFrames }

/-- A world in which the extraction leaves three frames. -/
def threeFrameWorld : World :=
  { runFfmpeg := fun _ _ _ _ _ =>
      { mkdirOk := true, ffmpegOk := true
        entries := some ["thum002.jpg", "thum001.jpg", "thum003.jpg"] }
    copyOk := fun _ _ => true
    img := goodFrames }

/-! ## Lemmas on Go maps -/

namespace GoMap

variable {V : Type}

theorem get?_erase (m : GoMap V) (k q : String) :
    (m.erase k).get? q = if q = k then none else m.get? q := by
  induction m with
  | nil => simp [erase, get?]
  | cons e m ih =>
    obtain ⟨k', v⟩ := e
    by_cases hk : k' = k
    · subst hk
      have : erase ((k', v) :: m) k' = erase m k' := by simp [erase]
      rw [this, ih]
      by_cases hq : q = k'
      · simp [hq]
      · have hq' : ¬ k' = q := fun h => hq h.symm
        simp [hq, get?, hq']
    · have : erase ((k', v) :: m) k = (k', v) :: erase m k := by simp [erase, hk]
      rw [this]
      by_cases hq : q = k
      · subst hq
        simp [get?, hk, ih]
      · by_cases hkq : k' = q
        · simp [get?, hkq, hq]
        · simp [get?, hkq, hq, ih]

theorem get?_set (m : GoMap V) (k q : String) (v : V) :
    (m.set k v).get? q = if q = k then some v else m.get? q := by
  by_cases hq : q = k
  · subst hq
    simp [set, get?]
  · have hq' : ¬ k = q := fun h => hq h.symm
    simp [set, get?, hq, hq', get?_erase]

theorem get?_eq_none_of_not_mem_keys (m : GoMap V) (q : String) (h : q ∉ m.keys) :
    m.get? q = none := by
  induction m with
  | nil => rfl
  | cons e m ih =>
    obtain ⟨k', v⟩ := e
    simp only [keys, List.map_cons, List.mem_cons, not_or] at h
    have h1 : ¬ k' = q := fun h' => h.1 h'.symm
    simp only [get?, h1, if_false]
    exact ih h.2

theorem mem_keys_iff (m : GoMap V) (q : String) :
    q ∈ m.keys ↔ m.get? q ≠ none := by
  induction m with
  | nil => simp [keys, get?]
  | cons e m ih =>
    obtain ⟨k', v⟩ := e
    by_cases h : k' = q
    · simp [keys, get?, h]
    · have h' : ¬ q = k' := fun e => h e.symm
      simp only [keys, List.map_cons, List.mem_cons, h', false_or, get?, h, if_false]
      exact ih

end GoMap

theorem cacheInfo.pruneKeys_get? (fs : FileSystem) (ks : List String) (c : cacheInfo) (q : String) :
    (cacheInfo.pruneKeys fs ks c).Videos.get? q
        = (if q ∈ ks ∧ fs.IsFileExists q = false then none else c.Videos.get? q) ∧
    (cacheInfo.pruneKeys fs ks c).Mod.get? q
        = (if q ∈ ks ∧ fs.IsFileExists q = false then none else c.Mod.get? q) := by
  induction ks generalizing c with
  | nil => simp [pruneKeys]
  | cons k ks ih =>
    have hstep : cacheInfo.pruneKeys fs (k :: ks) c
        = cacheInfo.pruneKeys fs ks (if !fs.IsFileExists k then
            { Mod := c.Mod.erase k, Videos := c.Videos.erase k } else c) := rfl
    rw [hstep]
    obtain ⟨ihV, ihM⟩ := ih (if !fs.IsFileExists k then
            { Mod := c.Mod.erase k, Videos := c.Videos.erase k } else c)
    rw [ihV, ihM]
    by_cases hk : fs.IsFileExists k = true
    · have hqk : ∀ (h : q = k), fs.IsFileExists q = true := fun h => h ▸ hk
      constructor <;>
      · by_cases hq : q = k
        · simp [hk, hq]
        · simp [hk, hq]
    · have hk' : fs.IsFileExists k = false := by simpa using hk
      constructor <;>
      · by_cases hq : q = k
        · simp [hk', hq, GoMap.get?_erase]
        · by_cases hm : q ∈ ks ∧ fs.IsFileExists q = false
          · simp [hk', hq, hm]
          · simp [hk', hq, hm, GoMap.get?_erase]

/-! ## Cache store: completeness and pruning -/

theorem RemoveNotExistVideos_eq_pruneKeys (fs : FileSystem) (c : cacheInfo) :
    c.RemoveNotExistVideos fs = cacheInfo.pruneKeys fs c.Videos.keys c := rfl

/-- C1. Evaluation of two consecutive scans around one successful generation:
the video has a complete cache entry recorded at time 10 and is now modified at
time 20. The first scan marks it dirty, the generated record is committed with
both artifacts on disk, and the second scan over the unchanged tree marks the
same path dirty again, because the changed-time branch never stores the new
modification time. -/
theorem scan_twice_changed_mtime_dirty_again :
    (ScanVideos sampleDisk neverCanceled (some sampleCache) [sampleTree]).2 = [sampleVideoPath] ∧
    (genVideoInfoWork (fun _ => some sampleRecord)
        (ScanVideos sampleDisk neverCanceled (some sampleCache) [sampleTree]).1
        (ScanVideos sampleDisk neverCanceled (some sampleCache) [sampleTree]).2).IsExists
      sampleDisk sampleVideoPath = true ∧
    (ScanVideos sampleDisk neverCanceled
        (writeCache
          (genVideoInfoWork (fun _ => some sampleRecord)
            (ScanVideos sampleDisk neverCanceled (some sampleCache) [sampleTree]).1
            (ScanVideos sampleDisk neverCanceled (some sampleCache) [sampleTree]).2)
          (some sampleCache))
        [sampleTree]).2 = [sampleVideoPath] := by
  decide

/-- C2. `IsExists` answers true exactly when the cache holds a record for the
path whose preview and sprite descriptor are both present and whose cover file
and sprite file both exist on disk; and for every such entry, deleting the
sprite file while the cache is untouched makes `IsExists` answer false. -/
theorem IsExists_iff_complete (fs : FileSystem) (c : cacheInfo) (path : String) :
    (c.IsExists fs path = true ↔
      ∃ v pv th, c.Videos.get? path = some (some v) ∧ v.Preview = some pv ∧
        pv.Thumbs = some th ∧ fs.IsFileExists pv.Cover = true ∧
        fs.IsFileExists th.Path = true) ∧
    (∀ v pv th, c.Videos.get? path = some (some v) → v.Preview = some pv →
        pv.Thumbs = some th → c.IsExists (fs.remove th.Path) path = false) := by
  constructor
  · constructor
    · intro h
      unfold cacheInfo.IsExists cacheInfo.videoAt at h
      cases hv : c.Videos.get? path with
      | none => simp [hv] at h
      | some ov =>
        cases ov with
        | none => simp [hv] at h
        | some v =>
          cases hp : v.Preview with
          | none => simp [hv, hp] at h
          | some pv =>
            cases ht : pv.Thumbs with
            | none => simp [hv, hp, ht] at h
            | some th =>
              simp [hv, hp, ht] at h
              exact ⟨v, pv, th, rfl, hp, ht, h.1, h.2⟩
    · rintro ⟨v, pv, th, hv, hp, ht, h1, h2⟩
      simp [cacheInfo.IsExists, cacheInfo.videoAt, hv, hp, ht, h1, h2]
  · intro v pv th hv hp ht
    simp [cacheInfo.IsExists, cacheInfo.videoAt, hv, hp, ht, FileSystem.remove]

/-! ## Scanner step -/

/-- Effect of the callback on a video file that has no complete cache entry:
the path is appended to the dirty list, its timestamp is stored, and the map of
records is left as it was. -/
theorem walkFn_incomplete (fs : FileSystem) (cache : cacheInfo) (videos : List String)
    (path : String) (modTime : Time) (hv : fs.IsVideo path = true)
    (he : cache.IsExists fs path = false) :
    walkFn fs false cache videos path (some ⟨false, modTime⟩)
      = (cache.AddModTime path modTime, videos ++ [path], false) ∧
    (cache.AddModTime path modTime).ModTime path = modTime ∧
    (cache.AddModTime path modTime).Videos = cache.Videos := by
  refine ⟨?_, ?_, rfl⟩
  · simp [walkFn, hv, he]
  · simp [cacheInfo.AddModTime, cacheInfo.ModTime, GoMap.get?_set]

/-- C3. Evaluation of the scan step on a video whose cache record is stale: the
sprite file is gone, so `IsExists` is false; the step appends the path to the
dirty list and stores the modification time 20, and the stale record is still
in the cache afterwards. -/
theorem scan_step_keeps_stale_record :
    sampleCache.IsExists (sampleDisk.remove "/cache/001/thumbs.jpg") sampleVideoPath = false ∧
    (walkFn (sampleDisk.remove "/cache/001/thumbs.jpg") false sampleCache [] sampleVideoPath
        (some ⟨false, 20⟩)).2 = ([sampleVideoPath], false) ∧
    (walkFn (sampleDisk.remove "/cache/001/thumbs.jpg") false sampleCache [] sampleVideoPath
        (some ⟨false, 20⟩)).1.ModTime sampleVideoPath = 20 ∧
    (walkFn (sampleDisk.remove "/cache/001/thumbs.jpg") false sampleCache [] sampleVideoPath
        (some ⟨false, 20⟩)).1.Videos.get? sampleVideoPath = some (some sampleRecord) := by
  decide

/-! ## Pruning -/

/-- C4, as stated, fails: a timestamp entry of a path that is not on disk and
has no record survives `RemoveNotExistVideos`, so `Mod` is not its former
content restricted to the paths that exist. -/
theorem RemoveNotExistVideos_keeps_orphan_timestamp :
    ¬ (∀ q, (orphanCache.RemoveNotExistVideos emptyDisk).Mod.get? q
        = if emptyDisk.IsFileExists q = true then orphanCache.Mod.get? q else none) := by
  intro h
  have h1 := h "/videos/gone.mp4"
  revert h1
  decide

/-- C4, amended. After `RemoveNotExistVideos` the map of records is its former
content restricted to the paths that exist on disk, and the map of timestamps
has lost exactly the entries of the paths that do not exist and were keys of the
map of records; every other timestamp entry is unchanged, also that of a missing
path without a record. -/
theorem RemoveNotExistVideos_spec (fs : FileSystem) (c : cacheInfo) (q : String) :
    (c.RemoveNotExistVideos fs).Videos.get? q
      = (if fs.IsFileExists q = true then c.Videos.get? q else none) ∧
    (c.RemoveNotExistVideos fs).Mod.get? q
      = (if fs.IsFileExists q = false ∧ q ∈ c.Videos.keys then none else c.Mod.get? q) := by
  rw [RemoveNotExistVideos_eq_pruneKeys]
  obtain ⟨hV, hM⟩ := cacheInfo.pruneKeys_get? fs c.Videos.keys c q
  constructor
  · rw [hV]
    by_cases he : fs.IsFileExists q = true
    · simp [he]
    · have he' : fs.IsFileExists q = false := by simpa using he
      by_cases hk : q ∈ c.Videos.keys
      · simp [he', hk]
      · simp [he', hk, GoMap.get?_eq_none_of_not_mem_keys _ _ hk]
  · rw [hM]
    by_cases he : fs.IsFileExists q = true
    · simp [he]
    · have he' : fs.IsFileExists q = false := by simpa using he
      by_cases hk : q ∈ c.Videos.keys
      · simp [he', hk]
      · simp [he', hk]

/-! ## Aspect fit -/

theorem goDiv_pos (a b : Int) (ha : 0 ≤ a) (hb : 0 < b) : goDiv a b = some (a / b) := by
  have hb' : b ≠ 0 := ne_of_gt hb
  simp [goDiv, hb', Int.tdiv_eq_ediv ha (le_of_lt hb)]

theorem goDiv_of_pos (a b : Int) (hb : 0 < b) : goDiv a b = some (a.tdiv b) := by
  have hb' : b ≠ 0 := ne_of_gt hb
  simp [goDiv, hb']

theorem tdiv_pos (a b : Int) (ha : 0 ≤ a) (hb : 0 < b) : a.tdiv b = a / b :=
  Int.tdiv_eq_ediv ha (le_of_lt hb)

theorem tdiv_nonpos_of_nonpos (a b : Int) (ha : a ≤ 0) (hb : 0 < b) : a.tdiv b ≤ 0 := by
  have h := Int.tdiv_nonneg (a := -a) (b := b) (by omega) (le_of_lt hb)
  rw [Int.neg_tdiv] at h
  omega

/-- An integer inside the 64-bit range is its own 64-bit value. -/
theorem wrap64_of_range (x : Int) (h0 : -2 ^ 63 ≤ x) (h1 : x < 2 ^ 63) : wrap64 x = x := by
  unfold wrap64
  omega

/-- A product inside the 64-bit range does not wrap. -/
theorem mul64_of_range (a b : Int) (h0 : 0 ≤ a * b) (h1 : a * b < 2 ^ 63) :
    mul64 a b = a * b := by
  unfold mul64
  exact wrap64_of_range (a * b) (by omega) h1

/-- On positive arguments `AdjustAspectRatio` does not panic; its three
branches, with the wrapped products and truncating division of the code. -/
theorem AdjustAspectRatio_pos (width height tw th : Int)
    (hw : 0 < width) (hh : 0 < height) (htw : 0 < tw) (hth : 0 < th) :
    AdjustAspectRatio width height tw th
      = some (if width > (mul64 tw height).tdiv th then (tw, (mul64 tw height).tdiv width)
              else if height > (mul64 th width).tdiv tw then ((mul64 th width).tdiv height, th)
              else (tw, th)) := by
  simp only [AdjustAspectRatio, goDiv_of_pos _ _ hth, goDiv_of_pos _ _ hw, goDiv_of_pos _ _ htw,
    goDiv_of_pos _ _ hh, Option.bind_eq_bind, Option.some_bind, Option.pure_def]
  by_cases c1 : width > (mul64 tw height).tdiv th
  · simp [c1]
  · by_cases c2 : height > (mul64 th width).tdiv tw
    · simp [c1, c2]
    · simp [c1, c2]

/-- When the two products stay below `2^63` the branches read as follows with
floor division of the exact products. -/
theorem AdjustAspectRatio_eq (width height tw th : Int)
    (hw : 0 < width) (hh : 0 < height) (htw : 0 < tw) (hth : 0 < th)
    (hX : tw * height < 2 ^ 63) (hY : th * width < 2 ^ 63) :
    AdjustAspectRatio width height tw th
      = some (if width > tw * height / th then (tw, tw * height / width)
              else if height > th * width / tw then (th * width / height, th)
              else (tw, th)) := by
  have h1 : 0 ≤ tw * height := le_of_lt (mul_pos htw hh)
  have h2 : 0 ≤ th * width := le_of_lt (mul_pos hth hw)
  rw [AdjustAspectRatio_pos width height tw th hw hh htw hth, mul64_of_range _ _ h1 hX,
    mul64_of_range _ _ h2 hY, tdiv_pos _ _ h1 hth, tdiv_pos _ _ h1 hw, tdiv_pos _ _ h2 htw,
    tdiv_pos _ _ h2 hh]

theorem wider_iff (width height tw th : Int) (hth : 0 < th) :
    width > tw * height / th ↔ width * th > tw * height := by
  constructor
  · intro h
    exact (Int.ediv_lt_iff_lt_mul hth).mp h
  · intro h
    exact (Int.ediv_lt_iff_lt_mul hth).mpr h

theorem taller_iff (width height tw th : Int) (htw : 0 < tw) :
    height > th * width / tw ↔ width * th < tw * height := by
  constructor
  · intro h
    have := (Int.ediv_lt_iff_lt_mul htw).mp h
    linarith [mul_comm th width, mul_comm height tw]
  · intro h
    apply (Int.ediv_lt_iff_lt_mul htw).mpr
    linarith [mul_comm th width, mul_comm height tw]

/-- If a positive `a` exceeds the truncated quotient of `x` by `b`, then the
truncated quotient of `x` by `a` is below `b`; `x` may be any integer, also a
product that wrapped to a negative value. -/
theorem tdiv_lt_of_gt_tdiv (x a b : Int) (ha : 0 < a) (hb : 0 < b) (h : a > x.tdiv b) :
    x.tdiv a < b := by
  by_cases hx : x ≤ 0
  · exact lt_of_le_of_lt (tdiv_nonpos_of_nonpos x a hx ha) hb
  · have hx0 : 0 ≤ x := le_of_lt (not_le.mp hx)
    rw [tdiv_pos x b hx0 hb] at h
    rw [tdiv_pos x a hx0 ha]
    have h1 : x < a * b := (Int.ediv_lt_iff_lt_mul hb).mp h
    apply (Int.ediv_lt_iff_lt_mul ha).mpr
    linarith [mul_comm a b]

/-- C5. For positive arguments `AdjustAspectRatio` returns a size that fits the
target box, `fitW <= tw` and `fitH <= th`, with one side equal to its bound;
hence the two centring tests of `drawThumb`, cell height above fit height and
cell width above fit width, never hold together. -/
theorem AdjustAspectRatio_bounds (width height tw th : Int)
    (hw : 0 < width) (hh : 0 < height) (htw : 0 < tw) (hth : 0 < th) :
    ∃ fitW fitH, AdjustAspectRatio width height tw th = some (fitW, fitH) ∧
      fitW ≤ tw ∧ fitH ≤ th ∧ (fitW = tw ∨ fitH = th) ∧ ¬ (th > fitH ∧ tw > fitW) := by
  rw [AdjustAspectRatio_pos width height tw th hw hh htw hth]
  by_cases c1 : width > (mul64 tw height).tdiv th
  · have hfit : (mul64 tw height).tdiv width < th :=
      tdiv_lt_of_gt_tdiv (mul64 tw height) width th hw hth c1
    refine ⟨tw, (mul64 tw height).tdiv width, by simp [c1], le_refl _, le_of_lt hfit,
      Or.inl rfl, ?_⟩
    intro h
    exact lt_irrefl _ h.2
  · by_cases c2 : height > (mul64 th width).tdiv tw
    · have hfit : (mul64 th width).tdiv height < tw :=
        tdiv_lt_of_gt_tdiv (mul64 th width) height tw hh htw c2
      refine ⟨(mul64 th width).tdiv height, th, by simp [c1, c2], le_of_lt hfit, le_refl _,
        Or.inr rfl, ?_⟩
      intro h
      exact lt_irrefl _ h.1
    · refine ⟨tw, th, by simp [c1, c2], le_refl _, le_refl _, Or.inl rfl, ?_⟩
      intro h
      exact lt_irrefl _ h.1

/-- C5, at the sizes of the specification: a source of 800 by 600 in a box of
412 by 232 is fitted to 309 by 232. -/
theorem AdjustAspectRatio_bounds_witness :
    AdjustAspectRatio 800 600 412 232 = some (309, 232) ∧
    ∃ fitW fitH, AdjustAspectRatio 800 600 412 232 = some (fitW, fitH) ∧
      fitW ≤ 412 ∧ fitH ≤ 232 ∧ (fitW = 412 ∨ fitH = 232) ∧ ¬ (232 > fitH ∧ 412 > fitW) :=
  ⟨by decide,
    AdjustAspectRatio_bounds 800 600 412 232 (by decide) (by decide) (by decide) (by decide)⟩

/-- C6, as stated, fails where a product leaves the 64-bit range. For the
positive arguments `width = 1`, `height = 2^62`, `tw = 4`, `th = 1` the source
is the taller one, `width * th < tw * height`, but `tw * height = 2^64` wraps
to 0, the first comparison `1 > 0` holds, and the result is the wider branch
`(4, 0)` instead of `(0, 1)`. -/
theorem AdjustAspectRatio_misclassifies_on_overflow :
    (1 : Int) * 1 < 4 * 4611686018427387904 ∧
    mul64 4 4611686018427387904 = 0 ∧
    ((1 : Int) > (mul64 4 4611686018427387904).tdiv 1) ∧
    AdjustAspectRatio 1 4611686018427387904 4 1 = some (4, 0) ∧
    (⌊(((1 : Int) * 1 : Int) : ℚ) / ((4611686018427387904 : Int) : ℚ)⌋, (1 : Int)) = (0, 1) := by
  refine ⟨by decide, by decide, by decide, by decide, ?_⟩
  have h : ⌊(((1 : Int) * 1 : Int) : ℚ) / ((4611686018427387904 : Int) : ℚ)⌋ = 0 := by
    rw [Int.floor_eq_iff]
    constructor <;> norm_num
  rw [h]

/-- C6, amended. For positive arguments whose products `tw * height` and
`th * width` are below `2^63`, the two comparisons of `AdjustAspectRatio`, made
on 64-bit products with truncating division, hold exactly when the exact ratios
compare that way: the first when `width / height > tw / th` as rationals, that
is when `width * th > tw * height`, the second when `width * th < tw * height`.
In the first case the result is `tw` by the floor of `tw * height / width`, in
the second the floor of `th * width / height` by `th`, and when the ratios are
equal it is `tw` by `th`. -/
theorem AdjustAspectRatio_exact (width height tw th : Int)
    (hw : 0 < width) (hh : 0 < height) (htw : 0 < tw) (hth : 0 < th)
    (hX : tw * height < 2 ^ 63) (hY : th * width < 2 ^ 63) :
    ((width : ℚ) / (height : ℚ) > (tw : ℚ) / (th : ℚ) ↔ width * th > tw * height) ∧
    (width > (mul64 tw height).tdiv th ↔ width * th > tw * height) ∧
    (height > (mul64 th width).tdiv tw ↔ width * th < tw * height) ∧
    (width * th > tw * height →
      AdjustAspectRatio width height tw th
        = some (tw, ⌊((tw * height : Int) : ℚ) / (width : ℚ)⌋)) ∧
    (width * th < tw * height →
      AdjustAspectRatio width height tw th
        = some (⌊((th * width : Int) : ℚ) / (height : ℚ)⌋, th)) ∧
    (width * th = tw * height → AdjustAspectRatio width height tw th = some (tw, th)) := by
  have h1 : 0 ≤ tw * height := le_of_lt (mul_pos htw hh)
  have h2 : 0 ≤ th * width := le_of_lt (mul_pos hth hw)
  have floorW : ⌊((tw * height : Int) : ℚ) / (width : ℚ)⌋ = tw * height / width := by
    have := Rat.floor_intCast_div_natCast (tw * height) width.toNat
    rw [Int.toNat_of_nonneg (le_of_lt hw)] at this
    rw [← this]
    congr 2
    exact_mod_cast (Int.toNat_of_nonneg (le_of_lt hw)).symm
  have floorH : ⌊((th * width : Int) : ℚ) / (height : ℚ)⌋ = th * width / height := by
    have := Rat.floor_intCast_div_natCast (th * width) height.toNat
    rw [Int.toNat_of_nonneg (le_of_lt hh)] at this
    rw [← this]
    congr 2
    exact_mod_cast (Int.toNat_of_nonneg (le_of_lt hh)).symm
  have ratio : (width : ℚ) / (height : ℚ) > (tw : ℚ) / (th : ℚ) ↔ width * th > tw * height := by
    have hhq : (0 : ℚ) < (height : ℚ) := by exact_mod_cast hh
    have hthq : (0 : ℚ) < (th : ℚ) := by exact_mod_cast hth
    rw [gt_iff_lt, div_lt_div_iff₀ hthq hhq]
    constructor
    · intro h
      have h' : tw * height < width * th := by exact_mod_cast h
      exact h'
    · intro h
      exact_mod_cast h
  rw [mul64_of_range _ _ h1 hX, mul64_of_range _ _ h2 hY, tdiv_pos _ _ h1 hth,
    tdiv_pos _ _ h2 htw, floorW, floorH,
    AdjustAspectRatio_eq width height tw th hw hh htw hth hX hY]
  refine ⟨ratio, wider_iff width height tw th hth, taller_iff width height tw th htw, ?_, ?_, ?_⟩
  · intro h
    have c1 : width > tw * height / th := (wider_iff width height tw th hth).mpr h
    simp [c1]
  · intro h
    have c1 : ¬ width > tw * height / th := by
      intro c
      have := (wider_iff width height tw th hth).mp c
      exact lt_asymm h this
    have c2 : height > th * width / tw := (taller_iff width height tw th htw).mpr h
    simp only [c1, c2, if_true, if_false]
  · intro h
    have c1 : ¬ width > tw * height / th := by
      intro c
      have := (wider_iff width height tw th hth).mp c
      rw [h] at this
      exact lt_irrefl _ this
    have c2 : ¬ height > th * width / tw := by
      intro c
      have := (taller_iff width height tw th htw).mp c
      rw [h] at this
      exact lt_irrefl _ this
    simp only [c1, c2, if_false]

/-- C6, amended, at three sources in the box of 412 by 232: a wider one, a
taller one and one of the same ratio. -/
theorem AdjustAspectRatio_exact_witness :
    AdjustAspectRatio 1920 800 412 232 = some (412, 171) ∧
    AdjustAspectRatio 800 600 412 232 = some (309, 232) ∧
    AdjustAspectRatio 824 464 412 232 = some (412, 232) ∧
    ((1920 : Int) > (mul64 412 800).tdiv 232 ↔ (1920 : Int) * 232 > 412 * 800) ∧
    ((800 : Int) * 232 < 412 * 600 →
      AdjustAspectRatio 800 600 412 232
        = some (⌊(((232 : Int) * 800 : Int) : ℚ) / ((600 : Int) : ℚ)⌋, 232)) :=
  ⟨by decide, by decide, by decide,
    (AdjustAspectRatio_exact 1920 800 412 232 (by decide) (by decide) (by decide) (by decide)
      (by decide) (by decide)).2.1,
    (AdjustAspectRatio_exact 800 600 412 232 (by decide) (by decide) (by decide) (by decide)
      (by decide) (by decide)).2.2.2.2.1⟩

/-! ## Sampling rate -/

/-- When `spf * maxF` seconds fits in 64 bits of nanoseconds, the branch test of
`GenVideoPreview` compares the exact product with the duration. -/
theorem fps_eq (duration : Int) (pc : PreviewConfig) (hspf : 0 < pc.spf) (hmax : 0 < pc.maxF)
    (hrange : pc.spf * pc.maxF * Second < 2 ^ 63) :
    fps duration pc
      = if pc.spf * pc.maxF * Second > duration then (1, pc.spf)
        else (pc.maxF, duration.tdiv Second) := by
  have hS : (1 : Int) ≤ Second := by decide
  have hprod : 0 < pc.spf * pc.maxF := mul_pos hspf hmax
  have hle : pc.spf * pc.maxF ≤ pc.spf * pc.maxF * Second := by nlinarith
  have h1 : mul64 pc.spf pc.maxF = pc.spf * pc.maxF :=
    mul64_of_range _ _ (le_of_lt hprod) (lt_of_le_of_lt hle hrange)
  have h2 : mul64 (pc.spf * pc.maxF) Second = pc.spf * pc.maxF * Second :=
    mul64_of_range _ _ (by nlinarith) hrange
  simp only [fps, h1, h2]

/-- The duration in whole seconds, for a duration that is not negative. -/
theorem floor_seconds (duration : Int) : ⌊seconds duration⌋ = duration / Second := by
  have h := Rat.floor_intCast_div_natCast duration 1000000000
  have hS : ((Second : Int) : ℚ) = ((1000000000 : ℕ) : ℚ) := by
    simp [Second]
  have hS' : (Second : Int) = ((1000000000 : ℕ) : Int) := by
    simp [Second]
  unfold seconds
  rw [hS, h, hS']

/-- The branch test in exact terms: `spf * maxF` seconds against the duration
in seconds. -/
theorem short_iff (duration : Int) (pc : PreviewConfig) :
    ((pc.spf * pc.maxF : Int) : ℚ) > seconds duration ↔ pc.spf * pc.maxF * Second > duration := by
  have hS : (0 : Int) < Second := by decide
  have hSq : (0 : ℚ) < ((Second : Int) : ℚ) := by exact_mod_cast hS
  unfold seconds
  rw [gt_iff_lt, div_lt_iff₀ hSq]
  constructor
  · intro h
    have h' : duration < pc.spf * pc.maxF * Second := by exact_mod_cast h
    exact h'
  · intro h
    exact_mod_cast h

/-- C7, as stated, fails for a duration that is not a whole number of seconds,
and where the product leaves the 64-bit range. With `spf = 5`, `maxF = 100` and
500.5 s the printed rate is `100/500`, which is not `maxF` divided by the
duration in seconds. With `spf = maxF = 100000` and 90 s, `spf * maxF` seconds
is more than the duration, yet the product in nanoseconds wraps to a negative
value and the printed rate is `100000/90`, not `1/spf`. -/
theorem fps_not_maxF_over_seconds :
    fps 500500000000 (defaultConfig 412 232) = (100, 500) ∧
    fpsValue 500500000000 (defaultConfig 412 232)
      ≠ ((defaultConfig 412 232).maxF : ℚ) / seconds 500500000000 ∧
    overflowConfig.spf * overflowConfig.maxF * Second > 90 * Second ∧
    mul64 (mul64 overflowConfig.spf overflowConfig.maxF) Second = -8446744073709551616 ∧
    fps (90 * Second) overflowConfig = (100000, 90) := by
  have hf : fps 500500000000 (defaultConfig 412 232) = (100, 500) := by decide
  refine ⟨hf, ?_, by decide, by decide, by decide⟩
  rw [fpsValue, hf]
  norm_num [seconds, Second, defaultConfig]

/-- C7, amended. For positive `spf` and `maxF` with `spf * maxF` seconds below
`2^63` nanoseconds, and every duration: when `spf * maxF` seconds is strictly
more than the duration, `GenVideoPreview` prints the rate `1/spf`; otherwise it
prints `maxF` over the whole number of seconds of the duration, the floor of
the duration in seconds, which is positive; for a duration that is a whole
number of seconds this is `maxF` divided by the duration in seconds. -/
theorem fps_selection (duration : Int) (pc : PreviewConfig)
    (hspf : 0 < pc.spf) (hmax : 0 < pc.maxF) (hrange : pc.spf * pc.maxF * Second < 2 ^ 63) :
    (((pc.spf * pc.maxF : Int) : ℚ) > seconds duration →
      fps duration pc = (1, pc.spf) ∧ fpsValue duration pc = 1 / (pc.spf : ℚ)) ∧
    (¬ ((pc.spf * pc.maxF : Int) : ℚ) > seconds duration →
      fps duration pc = (pc.maxF, ⌊seconds duration⌋) ∧
      0 < ⌊seconds duration⌋ ∧
      fpsValue duration pc = (pc.maxF : ℚ) / ((⌊seconds duration⌋ : Int) : ℚ) ∧
      (Second ∣ duration → fpsValue duration pc = (pc.maxF : ℚ) / seconds duration)) := by
  have hS : (0 : Int) < Second := by decide
  have hprod : 0 < pc.spf * pc.maxF := mul_pos hspf hmax
  constructor
  · intro h
    have h' : pc.spf * pc.maxF * Second > duration := (short_iff duration pc).mp h
    have hf : fps duration pc = (1, pc.spf) := by
      rw [fps_eq duration pc hspf hmax hrange, if_pos h']
    refine ⟨hf, ?_⟩
    simp [fpsValue, hf]
  · intro h
    have h' : ¬ pc.spf * pc.maxF * Second > duration := fun c => h ((short_iff duration pc).mpr c)
    have hge : pc.spf * pc.maxF * Second ≤ duration := not_lt.mp h'
    have hd : 0 ≤ duration := le_trans (le_of_lt (mul_pos hprod hS)) hge
    have hfl : ⌊seconds duration⌋ = duration / Second := floor_seconds duration
    have hs1 : pc.spf * pc.maxF ≤ duration / Second := (Int.le_ediv_iff_mul_le hS).mpr hge
    have hf : fps duration pc = (pc.maxF, ⌊seconds duration⌋) := by
      rw [fps_eq duration pc hspf hmax hrange, if_neg h', tdiv_pos duration Second hd hS, hfl]
    refine ⟨hf, ?_, ?_, ?_⟩
    · rw [hfl]
      exact lt_of_lt_of_le hprod hs1
    · simp [fpsValue, hf]
    · rintro ⟨k, rfl⟩
      have hS0 : (Second : Int) ≠ 0 := ne_of_gt hS
      have hSq : ((Second : Int) : ℚ) ≠ 0 := by exact_mod_cast hS0
      have hk : Second * k / Second = k := Int.mul_ediv_cancel_left k hS0
      rw [hfl, hk] at hf
      simp only [fpsValue, hf, seconds]
      congr 1
      push_cast
      field_simp

/-- C7, amended, at the examples of the specification: with `spf = 5` and
`maxF = 100`, 90 s gives `1/5` and 600 s gives `100/600`. -/
theorem fps_selection_witness :
    fpsString (90 * Second) (defaultConfig 412 232) = "1/5" ∧
    fpsString (600 * Second) (defaultConfig 412 232) = "100/600" ∧
    ⌊seconds (600 * Second)⌋ = 600 ∧
    (fps (90 * Second) (defaultConfig 412 232) = (1, (defaultConfig 412 232).spf) ∧
      fpsValue (90 * Second) (defaultConfig 412 232) = 1 / ((defaultConfig 412 232).spf : ℚ)) ∧
    (fps (600 * Second) (defaultConfig 412 232)
        = ((defaultConfig 412 232).maxF, ⌊seconds (600 * Second)⌋) ∧
      0 < ⌊seconds (600 * Second)⌋ ∧
      fpsValue (600 * Second) (defaultConfig 412 232)
        = ((defaultConfig 412 232).maxF : ℚ) / ((⌊seconds (600 * Second)⌋ : Int) : ℚ) ∧
      (Second ∣ 600 * Second →
        fpsValue (600 * Second) (defaultConfig 412 232)
          = ((defaultConfig 412 232).maxF : ℚ) / seconds (600 * Second))) :=
  ⟨by decide, by decide,
    by rw [floor_seconds]; decide,
    (fps_selection (90 * Second) (defaultConfig 412 232) (by decide) (by decide) (by decide)).1
      (by norm_num [seconds, Second, defaultConfig]),
    (fps_selection (600 * Second) (defaultConfig 412 232) (by decide) (by decide) (by decide)).2
      (by norm_num [seconds, Second, defaultConfig])⟩

/-- C8, as stated, fails. With `spf = 5` and `maxF = 100` a video of 500.5 s is
in the long branch, the printed rate is `100/500`, and the rate times the
duration is 100.1 frames, more than `maxF`. With `spf = maxF = 100000` a video
of 90 s is shorter than `spf * maxF` seconds, yet the wrapped product sends it
to the long branch and the rate times the duration is 100000 frames, more than
`duration / spf`. -/
theorem frameCount_exceeds_maxF :
    ¬ ((defaultConfig 412 232).spf * (defaultConfig 412 232).maxF * Second > 500500000000) ∧
    fps 500500000000 (defaultConfig 412 232) = (100, 500) ∧
    ¬ (frameCount 500500000000 (defaultConfig 412 232) ≤ ((defaultConfig 412 232).maxF : ℚ)) ∧
    90 * Second < overflowConfig.spf * overflowConfig.maxF * Second ∧
    fps (90 * Second) overflowConfig = (100000, 90) ∧
    ¬ (frameCount (90 * Second) overflowConfig
        ≤ seconds (90 * Second) / (overflowConfig.spf : ℚ)) := by
  have hf : fps 500500000000 (defaultConfig 412 232) = (100, 500) := by decide
  have hg : fps (90 * Second) overflowConfig = (100000, 90) := by decide
  refine ⟨by decide, hf, ?_, by decide, hg, ?_⟩
  · rw [frameCount, fpsValue, hf]
    norm_num [seconds, Second, defaultConfig]
  · rw [frameCount, fpsValue, hg]
    norm_num [seconds, Second, overflowConfig]

/-- C8, amended. For positive `spf` and `maxF` with `spf * maxF` seconds below
`2^63` nanoseconds, and every duration in nanoseconds: when the duration is
shorter than `spf * maxF` seconds the rate times the duration in seconds is at
most `duration / spf`; when it is at least `spf * maxF` seconds the denominator
of the rate is not zero, the rate times the duration in seconds is less than
`maxF + 1`, and it is at most `maxF` when the duration is a whole number of
seconds. -/
theorem frameCount_bounds (duration : Int) (pc : PreviewConfig)
    (hspf : 0 < pc.spf) (hmax : 0 < pc.maxF) (hrange : pc.spf * pc.maxF * Second < 2 ^ 63) :
    (duration < pc.spf * pc.maxF * Second →
      frameCount duration pc ≤ seconds duration / (pc.spf : ℚ)) ∧
    (pc.spf * pc.maxF * Second ≤ duration →
      (fps duration pc).2 ≠ 0 ∧
      frameCount duration pc < (pc.maxF : ℚ) + 1 ∧
      (Second ∣ duration → frameCount duration pc ≤ (pc.maxF : ℚ))) := by
  have hS : (0 : Int) < Second := by decide
  have hSq : (0 : ℚ) < (Second : ℚ) := by exact_mod_cast hS
  constructor
  · intro h
    have hf : fps duration pc = (1, pc.spf) := by
      rw [fps_eq duration pc hspf hmax hrange, if_pos h]
    simp only [frameCount, fpsValue, hf]
    apply le_of_eq
    push_cast
    ring
  · intro h
    have hnot : ¬ pc.spf * pc.maxF * Second > duration := not_lt.mpr h
    have hprod : 0 < pc.spf * pc.maxF := mul_pos hspf hmax
    have hd : 0 ≤ duration := le_trans (le_of_lt (mul_pos hprod hS)) h
    have hf : fps duration pc = (pc.maxF, duration / Second) := by
      rw [fps_eq duration pc hspf hmax hrange, if_neg hnot, tdiv_pos duration Second hd hS]
    have hs1 : pc.spf * pc.maxF ≤ duration / Second := (Int.le_ediv_iff_mul_le hS).mpr h
    have hs2 : pc.maxF ≤ duration / Second := by
      have : pc.maxF ≤ pc.spf * pc.maxF := by nlinarith
      exact le_trans this hs1
    have hs0 : 0 < duration / Second := lt_of_lt_of_le hmax hs2
    have hs0q : (0 : ℚ) < ((duration / Second : Int) : ℚ) := by exact_mod_cast hs0
    have hmq : ((pc.maxF : Int) : ℚ) ≤ ((duration / Second : Int) : ℚ) := by exact_mod_cast hs2
    have hmq0 : (0 : ℚ) < (pc.maxF : ℚ) := by exact_mod_cast hmax
    refine ⟨?_, ?_, ?_⟩
    · rw [hf]
      exact ne_of_gt hs0
    · have hlt : duration < (duration / Second + 1) * Second := Int.lt_ediv_add_one_mul_self duration hS
      have hltq : (duration : ℚ) < (((duration / Second : Int) : ℚ) + 1) * (Second : ℚ) := by
        exact_mod_cast hlt
      have hsec : seconds duration < ((duration / Second : Int) : ℚ) + 1 := by
        unfold seconds
        rw [div_lt_iff₀ hSq]
        exact hltq
      simp only [frameCount, fpsValue, hf]
      have hrate : (0 : ℚ) < (pc.maxF : ℚ) / ((duration / Second : Int) : ℚ) := div_pos hmq0 hs0q
      calc (pc.maxF : ℚ) / ((duration / Second : Int) : ℚ) * seconds duration
          < (pc.maxF : ℚ) / ((duration / Second : Int) : ℚ) * (((duration / Second : Int) : ℚ) + 1) :=
            mul_lt_mul_of_pos_left hsec hrate
        _ = (pc.maxF : ℚ) + (pc.maxF : ℚ) / ((duration / Second : Int) : ℚ) := by
            field_simp
            ring
        _ ≤ (pc.maxF : ℚ) + 1 := by
            have : (pc.maxF : ℚ) / ((duration / Second : Int) : ℚ) ≤ 1 := by
              rw [div_le_one hs0q]
              exact hmq
            linarith
    · rintro ⟨k, hk⟩
      have hS0 : (Second : Int) ≠ 0 := ne_of_gt hS
      have hdiv : duration / Second = k := by
        rw [hk]
        exact Int.mul_ediv_cancel_left k hS0
      have hkq : (0 : ℚ) < (k : ℚ) := by
        rw [hdiv] at hs0q
        exact hs0q
      simp only [frameCount, fpsValue, hf, seconds, hdiv]
      apply le_of_eq
      rw [hk]
      push_cast
      field_simp

/-- C8, amended, at `spf = 5`, `maxF = 100`: a duration of 600 s, a whole
number of seconds, yields at most `maxF` frames; a duration of 500.5 s yields
less than `maxF + 1`; a duration of 90 s yields at most `duration / spf`. -/
theorem frameCount_bounds_witness :
    ((fps (600 * Second) (defaultConfig 412 232)).2 ≠ 0 ∧
      frameCount (600 * Second) (defaultConfig 412 232)
        < ((defaultConfig 412 232).maxF : ℚ) + 1) ∧
    frameCount (600 * Second) (defaultConfig 412 232) ≤ ((defaultConfig 412 232).maxF : ℚ) ∧
    frameCount 500500000000 (defaultConfig 412 232) < ((defaultConfig 412 232).maxF : ℚ) + 1 ∧
    frameCount (90 * Second) (defaultConfig 412 232)
      ≤ seconds (90 * Second) / ((defaultConfig 412 232).spf : ℚ) :=
  have h600 := (frameCount_bounds (600 * Second) (defaultConfig 412 232) (by decide) (by decide)
    (by decide)).2 (by decide)
  ⟨⟨h600.1, h600.2.1⟩, h600.2.2 (Dvd.intro_left 600 rfl),
    ((frameCount_bounds 500500000000 (defaultConfig 412 232) (by decide) (by decide)
      (by decide)).2 (by decide)).2.1,
    (frameCount_bounds (90 * Second) (defaultConfig 412 232) (by decide) (by decide)
      (by decide)).1 (by decide)⟩

/-! ## Progress relay -/

/-- The fields of `strings.Split` on one separator: the text before the first
separator, then the fields of the text after it. -/
theorem splitChars_eq (sep : Char) (cs : List Char) :
    splitChars sep cs
      = cs.takeWhile (fun c => decide (c ≠ sep)) ::
          (if sep ∈ cs then
            splitChars sep ((cs.dropWhile (fun c => decide (c ≠ sep))).drop 1)
          else []) := by
  induction cs with
  | nil => simp [splitChars]
  | cons c cs ih =>
    by_cases hc : c = sep
    · subst hc
      simp [splitChars]
    · have hc' : ¬ sep = c := fun h => hc h.symm
      rw [splitChars, if_neg hc, ih]
      simp [hc, hc']

theorem Split_head (kv : String) : (Split kv).headD "" = lineKey kv := by
  unfold Split lineKey
  rw [splitChars_eq]
  rfl

theorem Split_second (kv : String) :
    (Split kv).get? 1
      = if '=' ∈ kv.toList then
          some (String.mk ((afterFirstEq kv).takeWhile (fun c => decide (c ≠ '='))))
        else none := by
  unfold Split afterFirstEq
  rw [splitChars_eq]
  by_cases h : '=' ∈ kv.toList
  · rw [if_pos h, if_pos h, splitChars_eq]
    rfl
  · rw [if_neg h, if_neg h]
    rfl


theorem sinceSnapshot_snoc (received : List String) (l : String) :
    sinceSnapshot (received ++ [l])
      = if lineKey l = "progress" then [] else sinceSnapshot received ++ [l] := by
  unfold sinceSnapshot
  rw [List.reverse_append, List.reverse_singleton, List.singleton_append, List.takeWhile_cons]
  by_cases h : lineKey l = "progress"
  · simp [h]
  · simp [h]

theorem lastOutTime_snoc (seg : List String) (l : String) :
    lastOutTime (seg ++ [l]) = (outTimeOf l).getD (lastOutTime seg) := by
  unfold lastOutTime
  rw [List.filterMap_append]
  cases h : outTimeOf l with
  | none => simp [List.filterMap, h]
  | some v => simp [List.filterMap, h]

theorem lastSpeed_snoc (fm : Float64Model) (seg : List String) (l : String) :
    lastSpeed fm (seg ++ [l]) = (speedOf fm l).getD (lastSpeed fm seg) := by
  unfold lastSpeed
  rw [List.filterMap_append]
  cases h : speedOf fm l with
  | none => simp [List.filterMap, h]
  | some v => simp [List.filterMap, h]

/-- On a value that is not empty the slice and parse of the code give the
parse of the value without its last byte. -/
theorem parseSpeed_of_ne_nil (fm : Float64Model) (ss : String) (h : ss.toList ≠ []) :
    parseSpeed fm ss = some ((withoutLastByte ss).bind fm.ParseFloat) := by
  unfold parseSpeed withoutLastByte
  cases hl : ss.toList.getLast? with
  | none => exact absurd (List.getLast?_eq_none_iff.mp hl) h
  | some c =>
    by_cases hc : c.toNat < 128
    · simp only [hc, if_true, Option.some_bind]
    · simp only [hc, if_false, Option.none_bind]

/-- One call of `Collect` on a safe line: it does not panic, it returns the
accumulated snapshot exactly on a `progress` line, and it updates the
accumulator by what the line carries. -/
theorem Collect_safe (fm : Float64Model) (p : progressCollector fm) (kv : String)
    (hw : SafeLine kv) :
    ∃ p', Collect fm p kv
        = some (p', if lineKey kv = "progress" then some p.current else none) ∧
      p'.duration = p.duration ∧
      (lineKey kv = "progress" → p'.progress = none) ∧
      (lineKey kv ≠ "progress" →
        p'.current = { Duration := p.current.Duration
                       OutTime := (outTimeOf kv).getD p.current.OutTime
                       Speed := (speedOf fm kv).getD p.current.Speed }) := by
  obtain ⟨heq, hne⟩ := hw
  have hkey : (Split kv).headD "" = lineKey kv := Split_head kv
  have hget : '=' ∈ kv.toList →
      ∃ v, (Split kv).get? 1 = some v ∧ lineValue kv = TrimSpace v := by
    intro h
    exact ⟨_, by rw [Split_second, if_pos h], rfl⟩
  by_cases h1 : lineKey kv = "out_time_ms"
  · have hnp : lineKey kv ≠ "progress" := by rw [h1]; decide
    have hns : lineKey kv ≠ "speed" := by rw [h1]; decide
    have hsp : speedOf fm kv = none := by simp [speedOf, hns]
    obtain ⟨v, hv, hval⟩ := hget (heq (Or.inl h1))
    cases hp : ParseInt (TrimSpace v) with
    | none =>
      refine ⟨{ p with progress := some p.current }, ?_, rfl, fun h => absurd h hnp, fun _ => ?_⟩
      · unfold Collect; simp only [hkey, hv]; simp [h1, hp, hnp]
      · simp [progressCollector.current, outTimeOf, h1, hval, hp, hsp]
    | some ot =>
      refine ⟨{ p with progress := some { p.current with OutTime := mul64 ot Microsecond } }, ?_,
        rfl, fun h => absurd h hnp, fun _ => ?_⟩
      · unfold Collect; simp only [hkey, hv]; simp [h1, hp, hnp]
      · simp [progressCollector.current, outTimeOf, h1, hval, hp, hsp, mul64]
  · by_cases h2 : lineKey kv = "speed"
    · have hnp : lineKey kv ≠ "progress" := by rw [h2]; decide
      have hot : outTimeOf kv = none := by simp [outTimeOf, h1]
      obtain ⟨v, hv, hval⟩ := hget (heq (Or.inr h2))
      have hps : parseSpeed fm (lineValue kv)
          = some ((withoutLastByte (lineValue kv)).bind fm.ParseFloat) :=
        parseSpeed_of_ne_nil fm (lineValue kv) (hne h2)
      have hsp : speedOf fm kv = (withoutLastByte (lineValue kv)).bind fm.ParseFloat := by
        unfold speedOf
        rw [if_pos h2]
      rw [← hsp, hval] at hps
      cases hp : speedOf fm kv with
      | none =>
        rw [hp] at hps
        refine ⟨{ p with progress := some p.current }, ?_, rfl, fun h => absurd h hnp, fun _ => ?_⟩
        · unfold Collect; simp only [hkey, hv]; simp [h1, h2, hps, hnp]
        · simp [progressCollector.current, hot]
      | some speed =>
        rw [hp] at hps
        refine ⟨{ p with progress := some { p.current with Speed := speed } }, ?_, rfl,
          fun h => absurd h hnp, fun _ => ?_⟩
        · unfold Collect; simp only [hkey, hv]; simp [h1, h2, hps, hnp]
        · simp [progressCollector.current, hot]
    · have hot : outTimeOf kv = none := by simp [outTimeOf, h1]
      have hsp : speedOf fm kv = none := by simp [speedOf, h2]
      by_cases h3 : lineKey kv = "progress"
      · refine ⟨{ p with progress := none }, ?_, rfl, fun _ => rfl, fun h => absurd h3 h⟩
        unfold Collect; simp only [hkey]; simp [h1, h2, h3]
      · refine ⟨{ p with progress := some p.current }, ?_, rfl, fun h => absurd h h3, fun _ => ?_⟩
        · unfold Collect; simp only [hkey]; simp [h1, h2, h3]
        · simp [progressCollector.current, hot, hsp]

theorem expectedSnapshot_nil (fm : Float64Model) (d : Int) :
    expectedSnapshot fm d [] = { Duration := d, OutTime := 0, Speed := fm.zero } := rfl

theorem expectedSnapshot_snoc (fm : Float64Model) (d : Int) (received : List String)
    (l : String) :
    expectedSnapshot fm d (received ++ [l])
      = if lineKey l = "progress" then { Duration := d, OutTime := 0, Speed := fm.zero }
        else { Duration := d
               OutTime := (outTimeOf l).getD (expectedSnapshot fm d received).OutTime
               Speed := (speedOf fm l).getD (expectedSnapshot fm d received).Speed } := by
  unfold expectedSnapshot
  rw [sinceSnapshot_snoc]
  by_cases h : lineKey l = "progress"
  · simp only [h, if_true]
    rfl
  · simp only [h, if_false, lastOutTime_snoc, lastSpeed_snoc]

/-- Feeding safe lines to a collector that is in step with the lines received
so far: no call panics, each result is the expected one, and the collector
stays in step. -/
theorem feed_safe (fm : Float64Model) (d : Int) :
    ∀ (rest received : List String) (p : progressCollector fm),
      p.duration = d → p.current = expectedSnapshot fm d received →
      (∀ kv, received.getLast? = some kv → lineKey kv = "progress" → p.progress = none) →
      (∀ l ∈ rest, SafeLine l) →
      ∃ p' outs, feed fm p rest = some (p', outs) ∧ outs.length = rest.length ∧
        (∀ i kv, rest[i]? = some kv →
          outs[i]? = some (expectedResult fm d (received ++ rest.take i) kv)) ∧
        p'.duration = d ∧ p'.current = expectedSnapshot fm d (received ++ rest) ∧
        (∀ kv, (received ++ rest).getLast? = some kv → lineKey kv = "progress" →
          p'.progress = none) := by
  intro rest
  induction rest with
  | nil =>
    intro received p hd hc hr _
    refine ⟨p, [], rfl, rfl, ?_, hd, ?_, ?_⟩
    · intro i kv h
      simp at h
    · simpa using hc
    · simpa using hr
  | cons l rest ih =>
    intro received p hd hc hr hw
    obtain ⟨p1, hC, hd1, hreset, hupd⟩ := Collect_safe fm p l (hw l (List.mem_cons_self l rest))
    have hc1 : p1.current = expectedSnapshot fm d (received ++ [l]) := by
      rw [expectedSnapshot_snoc]
      by_cases h : lineKey l = "progress"
      · simp only [h, if_true]
        simp [progressCollector.current, hreset h, hd1, hd]
      · simp only [h, if_false]
        rw [hupd h, hc]
        rfl
    have hr1 : ∀ kv, (received ++ [l]).getLast? = some kv → lineKey kv = "progress" →
        p1.progress = none := by
      intro kv hk hp
      simp at hk
      subst hk
      exact hreset hp
    obtain ⟨p2, outs, hF, hlen, hidx, hd2, hc2, hr2⟩ :=
      ih (received ++ [l]) p1 (hd1.trans hd) hc1 hr1
        (fun x hx => hw x (List.mem_cons_of_mem l hx))
    refine ⟨p2, (if lineKey l = "progress" then some p.current else none) :: outs,
      ?_, ?_, ?_, hd2, ?_, ?_⟩
    · simp [feed, hC, hF]
    · simp [hlen]
    · intro i kv h
      cases i with
      | zero =>
        simp at h
        subst h
        simp [expectedResult, hc]
      | succ i =>
        simp at h
        have := hidx i kv h
        simpa [List.append_assoc] using this
    · simpa [List.append_assoc] using hc2
    · simpa [List.append_assoc] using hr2

/-- C9, amended. A collector with job duration `d` is fed lines on which
decoding does not fail: every `out_time_ms` or `speed` line has a `=`, and no
`speed` value is empty. Key and value of a line are the text before its first
`=` and the text between that `=` and the next one or the end of the line,
without surrounding white space. No call fails. The call on a line returns a
snapshot exactly when the key of the line is `progress`; that snapshot has
`Duration` `d`, `OutTime` the last `out_time_ms` value that parsed since the
previous snapshot, taken as microseconds in 64-bit nanoseconds, and `Speed`
the last `speed` value that parsed once its last byte was removed, whatever
that byte is, since the previous snapshot, each zero if there was none. After
a snapshot is returned the accumulator is reset. -/
theorem Collect_decodes (fm : Float64Model) (d : Int) (lines : List String)
    (hw : ∀ l ∈ lines, SafeLine l) :
    ∃ p' outs, feed fm { duration := d, progress := none } lines = some (p', outs) ∧
      outs.length = lines.length ∧
      (∀ i kv, lines[i]? = some kv →
        outs[i]? = some (expectedResult fm d (lines.take i) kv)) ∧
      p'.current = expectedSnapshot fm d lines ∧
      (∀ kv, lines.getLast? = some kv → lineKey kv = "progress" → p'.progress = none) := by
  obtain ⟨p', outs, hF, hlen, hidx, _, hc, hr⟩ :=
    feed_safe fm d lines [] { duration := d, progress := none } rfl rfl
      (fun kv h => by simp at h) hw
  refine ⟨p', outs, hF, hlen, ?_, ?_, ?_⟩
  · intro i kv h
    simpa using hidx i kv h
  · simpa using hc
  · simpa using hr

/-- C9, amended, on the lines of the specification example with a job duration
of 90 s: exactly one snapshot, on the third line, with 1800 s of elapsed time
and speed 25.6, and an empty accumulator afterwards. On a longer sequence with
`speed=N/A` and `speed=12`: the first does not parse and leaves the speed as it
was, the second is stored as 1. -/
theorem Collect_decodes_witness :
    (∀ l ∈ sampleLines, SafeLine l) ∧
    feed decimalModel { duration := 90 * Second, progress := none } sampleLines
      = some ({ duration := 90 * Second, progress := none },
          [none, none,
            some { Duration := 90 * Second, OutTime := 1800 * Second, Speed := ((256 : Int), 1) }]) ∧
    feed decimalModel { duration := 90 * Second, progress := none } mixedLines
      = some ({ duration := 90 * Second, progress := none },
          [none, none, none, none,
            some { Duration := 90 * Second, OutTime := 1800 * Second, Speed := ((256 : Int), 1) },
            none,
            some { Duration := 90 * Second, OutTime := 0, Speed := ((1 : Int), 0) }]) ∧
    ∃ p' outs, feed decimalModel { duration := 90 * Second, progress := none } sampleLines
        = some (p', outs) ∧
      outs.length = sampleLines.length ∧
      (∀ i kv, sampleLines[i]? = some kv →
        outs[i]? = some (expectedResult decimalModel (90 * Second) (sampleLines.take i) kv)) ∧
      p'.current = expectedSnapshot decimalModel (90 * Second) sampleLines ∧
      (∀ kv, sampleLines.getLast? = some kv → lineKey kv = "progress" → p'.progress = none) :=
  have hw : ∀ l ∈ sampleLines, SafeLine l := by
    intro l hl
    simp only [sampleLines, List.mem_cons, List.mem_singleton, List.not_mem_nil, or_false] at hl
    rcases hl with rfl | rfl | rfl <;> (unfold SafeLine; decide)
  ⟨hw, rfl, rfl, Collect_decodes decimalModel (90 * Second) sampleLines hw⟩

/-- C9, as stated, fails on lines of the form `key=value`, for a job duration
of 90 s. On `speed=12` the value has no trailing `x` and parses as 12, but the
last digit is cut off and the snapshot has speed 1. On `out_time_ms=5=7` the
value `5=7` does not parse, but the text up to the second `=` is parsed and the
snapshot has 5 microseconds. On `out_time_ms=9223372036854775807` the value
parses, but its product with 1000 wraps and the snapshot has -1000
nanoseconds. On `speed=` the call fails, and no snapshot is returned on the
`progress` line that follows. -/
theorem Collect_differs_on_key_value_lines :
    decimalModel.ParseFloat (stripTrailingX (specValue "speed=12")) = some ((12 : Int), 0) ∧
    feed decimalModel { duration := 90 * Second, progress := none }
        ["speed=12", "progress=continue"]
      = some ({ duration := 90 * Second, progress := none },
          [none, some { Duration := 90 * Second, OutTime := 0, Speed := ((1 : Int), 0) }]) ∧
    ParseInt (specValue "out_time_ms=5=7") = none ∧
    feed decimalModel { duration := 90 * Second, progress := none }
        ["out_time_ms=5=7", "progress=continue"]
      = some ({ duration := 90 * Second, progress := none },
          [none, some { Duration := 90 * Second, OutTime := 5 * Microsecond,
                        Speed := ((0 : Int), 0) }]) ∧
    ParseInt (specValue "out_time_ms=9223372036854775807") = some 9223372036854775807 ∧
    feed decimalModel { duration := 90 * Second, progress := none }
        ["out_time_ms=9223372036854775807", "progress=continue"]
      = some ({ duration := 90 * Second, progress := none },
          [none, some { Duration := 90 * Second, OutTime := -1000, Speed := ((0 : Int), 0) }]) ∧
    feed decimalModel { duration := 90 * Second, progress := none }
        ["speed=", "progress=continue"] = none :=
  ⟨rfl, rfl, by decide, rfl, by decide, rfl, rfl⟩

/-- C10. A connection handled while no source is armed: whatever lines arrive,
`progressFn` fails on its first use of the nil source, before any line is read;
it does not return normally. -/
theorem progressFn_unarmed_panics (fm : Float64Model) (σ : Type)
    (reads : List (String × Bool)) (obs : σ) :
    (@ProgressServer.NextProgressSource fm σ { source := none }).1 = none ∧
    (acceptOne fm ({ source := none } : ProgressServer fm σ) reads obs).1 = none ∧
    progressFn fm (none : Option (ProgressSource fm σ)) reads obs = none :=
  ⟨rfl, rfl, rfl⟩

/-! ## Scanner step after a commit -/

/-- A record counts as complete on a disk when its preview and sprite
descriptor are present and both files exist. -/
theorem IsExists_AddVideo (fs : FileSystem) (cache : cacheInfo) (video : Video)
    (pv : VideoPreview) (th : ThumbSprite) (hp : video.Preview = some pv)
    (ht : pv.Thumbs = some th) (hc : fs.IsFileExists pv.Cover = true)
    (hs : fs.IsFileExists th.Path = true) :
    (addCacheVideo cache video).IsExists fs video.Path = true := by
  simp [addCacheVideo, cacheInfo.AddVideo, cacheInfo.IsExists, cacheInfo.videoAt,
    GoMap.get?_set, hp, ht, hc, hs]

/-- A path that became dirty for want of a complete entry is clean at the next
visit, once its record is committed and its modification time is unchanged. -/
theorem revisit_after_incomplete (fs : FileSystem) (cache : cacheInfo) (videos later : List String)
    (path : String) (modTime : Time) (video : Video) (pv : VideoPreview) (th : ThumbSprite)
    (hv : fs.IsVideo path = true) (he : cache.IsExists fs path = false)
    (hpath : video.Path = path) (hp : video.Preview = some pv) (ht : pv.Thumbs = some th)
    (hc : fs.IsFileExists pv.Cover = true) (hs : fs.IsFileExists th.Path = true) :
    (walkFn fs false cache videos path (some ⟨false, modTime⟩)).2.1 = videos ++ [path] ∧
    (walkFn fs false
        (addCacheVideo (walkFn fs false cache videos path (some ⟨false, modTime⟩)).1 video)
        later path (some ⟨false, modTime⟩)).2.1 = later := by
  obtain ⟨h1, h2, _⟩ := walkFn_incomplete fs cache videos path modTime hv he
  rw [h1]
  refine ⟨rfl, ?_⟩
  have hex : (addCacheVideo (cache.AddModTime path modTime) video).IsExists fs path = true := by
    rw [← hpath]
    exact IsExists_AddVideo fs _ video pv th hp ht hc hs
  have hmod : (addCacheVideo (cache.AddModTime path modTime) video).ModTime path = modTime := h2
  simp [walkFn, hv, hex, hmod]

/-- A path that became dirty because its modification time changed is dirty
again at the next visit, although its record is committed and nothing changed:
the stored time is still the old one. -/
theorem revisit_after_changed (fs : FileSystem) (cache : cacheInfo) (videos later : List String)
    (path : String) (modTime : Time) (video : Video) (pv : VideoPreview) (th : ThumbSprite)
    (hv : fs.IsVideo path = true) (he : cache.IsExists fs path = true)
    (hm : modTime ≠ cache.ModTime path)
    (hpath : video.Path = path) (hp : video.Preview = some pv) (ht : pv.Thumbs = some th)
    (hc : fs.IsFileExists pv.Cover = true) (hs : fs.IsFileExists th.Path = true) :
    (walkFn fs false cache videos path (some ⟨false, modTime⟩)).2.1 = videos ++ [path] ∧
    (walkFn fs false
        (addCacheVideo (walkFn fs false cache videos path (some ⟨false, modTime⟩)).1 video)
        later path (some ⟨false, modTime⟩)).2.1 = later ++ [path] := by
  have h1 : walkFn fs false cache videos path (some ⟨false, modTime⟩)
      = (cache.RemoveVideo path, videos ++ [path], false) := by
    simp [walkFn, hv, he, hm]
  rw [h1]
  refine ⟨rfl, ?_⟩
  have hex : (addCacheVideo (cache.RemoveVideo path) video).IsExists fs path = true := by
    rw [← hpath]
    exact IsExists_AddVideo fs _ video pv th hp ht hc hs
  have hmod : (addCacheVideo (cache.RemoveVideo path) video).ModTime path = cache.ModTime path :=
    rfl
  simp [walkFn, hv, hex, hmod, hm]

/-! ## Sprite compositor -/

theorem goMod_pos (a b : Int) (ha : 0 ≤ a) (hb : 0 < b) : goMod a b = some (a % b) := by
  have hb' : b ≠ 0 := ne_of_gt hb
  simp [goMod, hb', Int.tmod_eq_emod ha (le_of_lt hb)]

theorem Rect_ordered (x0 y0 x1 y1 : Int) (hx : x0 ≤ x1) (hy : y0 ≤ y1) :
    Rect x0 y0 x1 y1 = { MinX := x0, MinY := y0, MaxX := x1, MaxY := y1 } := by
  have hx' : ¬ x0 > x1 := not_lt.mpr hx
  have hy' : ¬ y0 > y1 := not_lt.mpr hy
  simp [Rect, hx', hy']

/-- With cells that are not of negative size the rectangle built in the loop
is the grid cell. -/
theorem cellRect_eq (thumbWidth thumbHeight cols : Int) (i : Nat)
    (htw : 0 ≤ thumbWidth) (hth : 0 ≤ thumbHeight) (hcols : 0 < cols) :
    cellRect thumbWidth thumbHeight cols i = some (gridCell thumbWidth thumbHeight cols i) := by
  have hi : (0 : Int) ≤ (i : Int) := Int.ofNat_nonneg i
  simp only [cellRect, goMod_pos _ _ hi hcols, goDiv_pos _ _ hi hcols, Option.bind_eq_bind,
    Option.some_bind, Option.pure_def]
  rw [Rect_ordered]
  · rfl
  · nlinarith
  · nlinarith

/-- A frame of positive size is placed in a cell of positive size without a
failed division. -/
theorem drawThumbRect_isSome (r : Rectangle) (cw ch : Int) (hcw : 0 < cw) (hch : 0 < ch)
    (hdx : 0 < r.Dx) (hdy : 0 < r.Dy) : ∃ dst, drawThumbRect r cw ch = some dst := by
  simp only [drawThumbRect, AdjustAspectRatio_pos cw ch r.Dx r.Dy hcw hch hdx hdy,
    Option.bind_eq_bind, Option.some_bind, Option.pure_def]
  split <;> exact ⟨_, rfl⟩

theorem gridCell_Dx (thumbWidth thumbHeight cols : Int) (i : Nat) :
    (gridCell thumbWidth thumbHeight cols i).Dx = thumbWidth := by
  simp only [gridCell, Rectangle.Dx]
  ring

theorem gridCell_Dy (thumbWidth thumbHeight cols : Int) (i : Nat) :
    (gridCell thumbWidth thumbHeight cols i).Dy = thumbHeight := by
  simp only [gridCell, Rectangle.Dy]
  ring

/-- One turn of the loop on a frame that decodes to a positive size, with cells
of positive size: the frame is drawn into its grid cell. -/
theorem drawFrame_ok (img : ImageFiles) (thumbs : List String) (thumbWidth thumbHeight cols : Int)
    (i : Nat) (t : String) (cw ch : Int) (htw : 0 < thumbWidth) (hth : 0 < thumbHeight)
    (hcols : 0 < cols) (ht : thumbs[i]? = some t) (hc : img.DecodeConfig t = some (cw, ch))
    (hcw : 0 < cw) (hch : 0 < ch) (hd : img.Decode t = true) :
    ∃ dst, drawFrame img thumbs thumbWidth thumbHeight cols i
      = .ok { thumbPath := t, cell := gridCell thumbWidth thumbHeight cols i, dstRect := dst } := by
  obtain ⟨dst, hdst⟩ := drawThumbRect_isSome (gridCell thumbWidth thumbHeight cols i) cw ch hcw hch
    (by rw [gridCell_Dx]; exact htw) (by rw [gridCell_Dy]; exact hth)
  refine ⟨dst, ?_⟩
  have ht' : thumbs.get? i = some t := by simpa using ht
  unfold drawFrame
  rw [cellRect_eq thumbWidth thumbHeight cols i (le_of_lt htw) (le_of_lt hth) hcols]
  simp only [ht', drawThumb, hc, hdst, hd, if_true]

/-- The drawing loop over indices whose frames are all drawn: one draw per
index, in order. -/
theorem drawLoop_ok (img : ImageFiles) (thumbs : List String) (thumbWidth thumbHeight cols : Int)
    (P : Nat → DrawOp → Prop) :
    ∀ (is : List Nat),
      (∀ i ∈ is, ∃ d, drawFrame img thumbs thumbWidth thumbHeight cols i = .ok d ∧ P i d) →
      ∃ ds, drawLoop img thumbs thumbWidth thumbHeight cols is = .ok ds ∧
        ds.length = is.length ∧
        ∀ (k : Nat) i d, is[k]? = some i → ds[k]? = some d → P i d := by
  intro is
  induction is with
  | nil =>
    intro _
    exact ⟨[], rfl, rfl, fun k i d h => by simp at h⟩
  | cons i rest ih =>
    intro h
    obtain ⟨d, hd, hP⟩ := h i (List.mem_cons_self i rest)
    obtain ⟨ds, hds, hlen, hidx⟩ := ih (fun j hj => h j (List.mem_cons_of_mem i hj))
    refine ⟨d :: ds, ?_, ?_, ?_⟩
    · simp only [drawLoop, hd, hds]
    · simp [hlen]
    · intro k j e hj he
      cases k with
      | zero =>
        simp at hj he
        subst hj
        subst he
        exact hP
      | succ k =>
        simp at hj he
        exact hidx k j e hj he

/-- C11, amended. For positive `rows` and `cols`, a sheet at least `cols` wide
and `rows` high, and frames of which the first `n = min(rows*cols, len(frames))`
decode to a positive size, with a sheet that can be written:
`videoThumbnailsSprite` returns a descriptor and has made exactly `n` draws, the
draw number `i` with frame `i`, in the cell at row `i / cols` and column
`i % cols`, of size `width / cols` by `height / rows`, inside the sheet
rectangle; distinct frames have distinct cells; the descriptor reports
`Count = n`, `ThumbWidth = width / cols` and `ThumbHeight = height / rows`. -/
theorem videoThumbnailsSprite_grid (img : ImageFiles) (thumbs : List String) (out : String)
    (width height rows cols : Int)
    (hrows : 0 < rows) (hcols : 0 < cols) (hw : cols ≤ width) (hh : rows ≤ height)
    (hdec : ∀ (i : Nat) t, (i : Int) < spriteNums rows cols thumbs → thumbs[i]? = some t →
      ∃ cw ch, img.DecodeConfig t = some (cw, ch) ∧ 0 < cw ∧ 0 < ch ∧ img.Decode t = true)
    (hwrite : img.WriteSheet out = true) :
    ∃ sprite draws,
      videoThumbnailsSprite img thumbs out width height rows cols = .ok (sprite, draws) ∧
      sprite.Count = min (rows * cols) (thumbs.length : Int) ∧
      sprite.ThumbWidth = width / cols ∧ sprite.ThumbHeight = height / rows ∧
      (draws.length : Int) = min (rows * cols) (thumbs.length : Int) ∧
      (∀ (i : Nat) d, draws[i]? = some d →
        thumbs[i]? = some d.thumbPath ∧
        d.cell = gridCell (width / cols) (height / rows) cols i ∧
        d.cell.Dx = width / cols ∧ d.cell.Dy = height / rows ∧
        0 ≤ d.cell.MinX ∧ 0 ≤ d.cell.MinY ∧ d.cell.MaxX ≤ width ∧ d.cell.MaxY ≤ height) ∧
      (∀ (i j : Nat) d e, draws[i]? = some d → draws[j]? = some e → i ≠ j → d.cell ≠ e.cell) := by
  have hwidth : 0 ≤ width := le_trans (le_of_lt hcols) hw
  have hheight : 0 ≤ height := le_trans (le_of_lt hrows) hh
  have htw : 0 < width / cols :=
    lt_of_lt_of_le Int.one_pos ((Int.le_ediv_iff_mul_le hcols).mpr (by simpa using hw))
  have hth : 0 < height / rows :=
    lt_of_lt_of_le Int.one_pos ((Int.le_ediv_iff_mul_le hrows).mpr (by simpa using hh))
  have hnn : 0 ≤ spriteNums rows cols thumbs :=
    le_min (le_of_lt (mul_pos hrows hcols)) (Int.ofNat_nonneg _)
  have hn : ((spriteNums rows cols thumbs).toNat : Int) = spriteNums rows cols thumbs :=
    Int.toNat_of_nonneg hnn
  have hloop := drawLoop_ok img thumbs (width / cols) (height / rows) cols
    (fun i d => thumbs[i]? = some d.thumbPath ∧
      d.cell = gridCell (width / cols) (height / rows) cols i)
    (List.range (spriteNums rows cols thumbs).toNat)
    (by
      intro i hi
      have hi' : i < (spriteNums rows cols thumbs).toNat := List.mem_range.mp hi
      have hlt : (i : Int) < spriteNums rows cols thumbs := by
        rw [← hn]
        exact_mod_cast hi'
      have hlen : i < thumbs.length := by
        have : (i : Int) < (thumbs.length : Int) := lt_of_lt_of_le hlt (min_le_right _ _)
        exact_mod_cast this
      have hget : thumbs[i]? = some thumbs[i] := List.getElem?_eq_getElem hlen
      obtain ⟨cw, ch, hc, hcw, hch, hd⟩ := hdec i thumbs[i] hlt hget
      obtain ⟨dst, hdst⟩ := drawFrame_ok img thumbs (width / cols) (height / rows) cols i
        thumbs[i] cw ch htw hth hcols hget hc hcw hch hd
      exact ⟨_, hdst, hget, rfl⟩)
  obtain ⟨draws, hdraws, hlen, hidx⟩ := hloop
  have hlen' : (draws.length : Int) = spriteNums rows cols thumbs := by
    rw [hlen, List.length_range, hn]
  have hat : ∀ (i : Nat) d, draws[i]? = some d →
      (i : Int) < spriteNums rows cols thumbs ∧ thumbs[i]? = some d.thumbPath ∧
      d.cell = gridCell (width / cols) (height / rows) cols i := by
    intro i d hd
    have hi : i < draws.length := by
      by_contra hge
      have hnone : draws[i]? = none := List.getElem?_eq_none (not_lt.mp hge)
      rw [hnone] at hd
      exact Option.noConfusion hd
    have hi' : i < (spriteNums rows cols thumbs).toNat := by
      rw [hlen, List.length_range] at hi
      exact hi
    have hr : (List.range (spriteNums rows cols thumbs).toNat)[i]? = some i := by
      rw [List.getElem?_eq_getElem (by simpa using hi')]
      simp
    have hlt : (i : Int) < spriteNums rows cols thumbs := by
      rw [← hn]
      exact_mod_cast hi'
    exact ⟨hlt, hidx i i d hr hd⟩
  refine ⟨{ Path := out, Width := width, Height := height, ThumbWidth := width / cols
            ThumbHeight := height / rows, Count := spriteNums rows cols thumbs }, draws,
    ?_, rfl, rfl, rfl, hlen', ?_, ?_⟩
  · simp only [videoThumbnailsSprite, goDiv_pos width cols hwidth hcols,
      goDiv_pos height rows hheight hrows, hdraws, hwrite, if_true]
  · intro i d hd
    obtain ⟨hlt, hthumb, hcell⟩ := hat i d hd
    have hi0 : (0 : Int) ≤ (i : Int) := Int.ofNat_nonneg i
    have hcol0 : 0 ≤ (i : Int) % cols := Int.emod_nonneg _ (ne_of_gt hcols)
    have hcol1 : (i : Int) % cols < cols := Int.emod_lt_of_pos _ hcols
    have hrow0 : 0 ≤ (i : Int) / cols := Int.ediv_nonneg hi0 (le_of_lt hcols)
    have hrow1 : (i : Int) / cols < rows :=
      Int.ediv_lt_of_lt_mul hcols (lt_of_lt_of_le hlt (min_le_left _ _))
    have hwmul : width / cols * cols ≤ width := Int.ediv_mul_le width (ne_of_gt hcols)
    have hhmul : height / rows * rows ≤ height := Int.ediv_mul_le height (ne_of_gt hrows)
    refine ⟨hthumb, hcell, ?_, ?_, ?_, ?_, ?_, ?_⟩
    · rw [hcell, gridCell_Dx]
    · rw [hcell, gridCell_Dy]
    · rw [hcell]
      exact mul_nonneg hcol0 (le_of_lt htw)
    · rw [hcell]
      exact mul_nonneg hrow0 (le_of_lt hth)
    · rw [hcell]
      show ((i : Int) % cols + 1) * (width / cols) ≤ width
      have h1 : ((i : Int) % cols + 1) * (width / cols) ≤ cols * (width / cols) :=
        mul_le_mul_of_nonneg_right (by omega) (le_of_lt htw)
      linarith [mul_comm cols (width / cols)]
    · rw [hcell]
      show ((i : Int) / cols + 1) * (height / rows) ≤ height
      have h1 : ((i : Int) / cols + 1) * (height / rows) ≤ rows * (height / rows) :=
        mul_le_mul_of_nonneg_right (by omega) (le_of_lt hth)
      linarith [mul_comm rows (height / rows)]
  · intro i j d e hd he hij hcells
    obtain ⟨_, _, hcd⟩ := hat i d hd
    obtain ⟨_, _, hce⟩ := hat j e he
    rw [hcd, hce] at hcells
    have hx : ((i : Int) % cols) * (width / cols) = ((j : Int) % cols) * (width / cols) :=
      congrArg Rectangle.MinX hcells
    have hy : ((i : Int) / cols) * (height / rows) = ((j : Int) / cols) * (height / rows) :=
      congrArg Rectangle.MinY hcells
    have hcol : (i : Int) % cols = (j : Int) % cols := mul_right_cancel₀ (ne_of_gt htw) hx
    have hrow : (i : Int) / cols = (j : Int) / cols := mul_right_cancel₀ (ne_of_gt hth) hy
    have hi := Int.emod_add_ediv (i : Int) cols
    have hj := Int.emod_add_ediv (j : Int) cols
    rw [hcol, hrow] at hi
    have : (i : Int) = (j : Int) := hi.symm.trans hj
    exact hij (by exact_mod_cast this)

/-- C11, as stated, fails on a sheet smaller than the grid. With five frames
and a 3 by 3 grid, a sheet 2 wide has cells of width 0, and the first two
frames are given the same cell; a sheet 2 high has cells of height 0, and the
first draw ends in a division by zero inside `AdjustAspectRatio`, so no frame
is drawn and nothing is reported. And on a sheet of 480 by 270, frames that
cannot be opened end the call with an error before anything is drawn. -/
theorem videoThumbnailsSprite_degenerate_sheet :
    (videoThumbnailsSprite goodFrames fiveFrames "/cache/001/thumbs.jpg" 2 270 3 3).value?.map
        (fun r => (r.2.map (fun d => d.cell)).take 2)
      = some [{ MinX := 0, MinY := 0, MaxX := 0, MaxY := 90 },
              { MinX := 0, MinY := 0, MaxX := 0, MaxY := 90 }] ∧
    videoThumbnailsSprite goodFrames fiveFrames "/cache/001/thumbs.jpg" 480 2 3 3
      = .panicked ∧
    videoThumbnailsSprite brokenFrames fiveFrames "/cache/001/thumbs.jpg" 480 270 3 3
      = .failed := by
  decide

/-- C11, amended, on the examples of the specification with a sheet of 480 by
270: twelve frames in a 3 by 3 grid use the first nine, and five frames leave
four of the nine cells undrawn. -/
theorem videoThumbnailsSprite_grid_witness :
    (videoThumbnailsSprite goodFrames twelveFrames "/cache/001/thumbs.jpg" 480 270 3 3).value?.map
        (fun r => (r.1.Count, r.2.map (fun d => d.thumbPath)))
      = some (9, twelveFrames.take 9) ∧
    (videoThumbnailsSprite goodFrames fiveFrames "/cache/001/thumbs.jpg" 480 270 3 3).value?.map
        (fun r => (r.1.Count, r.2.length, 3 * 3 - r.2.length))
      = some (5, 5, 4) ∧
    ∃ sprite draws,
      videoThumbnailsSprite goodFrames twelveFrames "/cache/001/thumbs.jpg" 480 270 3 3
        = .ok (sprite, draws) ∧
      sprite.Count = min ((3 : Int) * 3) (twelveFrames.length : Int) ∧
      sprite.ThumbWidth = (480 : Int) / 3 ∧ sprite.ThumbHeight = (270 : Int) / 3 ∧
      (draws.length : Int) = min ((3 : Int) * 3) (twelveFrames.length : Int) ∧
      (∀ (i : Nat) d, draws[i]? = some d →
        twelveFrames[i]? = some d.thumbPath ∧
        d.cell = gridCell ((480 : Int) / 3) ((270 : Int) / 3) 3 i ∧
        d.cell.Dx = (480 : Int) / 3 ∧ d.cell.Dy = (270 : Int) / 3 ∧
        0 ≤ d.cell.MinX ∧ 0 ≤ d.cell.MinY ∧ d.cell.MaxX ≤ 480 ∧ d.cell.MaxY ≤ 270) ∧
      (∀ (i j : Nat) d e, draws[i]? = some d → draws[j]? = some e → i ≠ j → d.cell ≠ e.cell) :=
  ⟨by decide, by decide,
    videoThumbnailsSprite_grid goodFrames twelveFrames "/cache/001/thumbs.jpg" 480 270 3 3
      (by decide) (by decide) (by decide) (by decide)
      (fun _ _ _ _ => ⟨160, 90, rfl, by decide, by decide, rfl⟩) rfl⟩

/-! ## Cover selection -/

/-- The middle index is a valid index of a list that is not empty. -/
theorem middle_index_valid (thumbs : List String) (h : thumbs ≠ []) :
    ∃ middle, thumbs[thumbs.length / 2]? = some middle := by
  have hpos : 0 < thumbs.length := List.length_pos.mpr h
  have hlt : thumbs.length / 2 < thumbs.length := Nat.div_lt_self hpos (by decide)
  exact ⟨thumbs[thumbs.length / 2], List.getElem?_eq_getElem hlt⟩

/-- When the extraction returns an empty list of frames, `GenVideoPreview`
indexes it out of range. -/
theorem GenVideoPreview_no_frames (w : World) (duration : Int) (path outDir : String)
    (pc : PreviewConfig)
    (h : videoThumbnails w path (Join outDir "thumbs") (fpsString duration pc) pc.cW pc.cH
      = some []) :
    GenVideoPreview w duration path outDir pc = .panicked := by
  simp [GenVideoPreview, h]

/-- When the extraction returns frames, a preview that is returned has the
middle frame as the source of its cover, at `cover.jpg` of the output
directory. -/
theorem GenVideoPreview_cover (w : World) (duration : Int) (path outDir : String)
    (pc : PreviewConfig) (thumbs : List String) (r : PreviewResult)
    (h : videoThumbnails w path (Join outDir "thumbs") (fpsString duration pc) pc.cW pc.cH
      = some thumbs)
    (hr : GenVideoPreview w duration path outDir pc = .ok r) :
    thumbs[thumbs.length / 2]? = some r.coverSource ∧
    r.preview.Cover = Join outDir "cover.jpg" := by
  unfold GenVideoPreview at hr
  simp only [h] at hr
  cases hm : thumbs.get? (thumbs.length / 2) with
  | none =>
    rw [hm] at hr
    cases hr
  | some middle =>
    simp only [hm] at hr
    by_cases hc : w.copyOk middle (Join outDir "cover.jpg") = true
    · simp only [hc, Bool.not_true, Bool.false_eq_true, if_false] at hr
      cases h1 : goDiv pc.width pc.perW with
      | none => simp [h1] at hr
      | some rows =>
        cases h2 : goDiv pc.height pc.perH with
        | none => simp [h1, h2] at hr
        | some cols =>
          simp only [h1, h2] at hr
          cases h3 : videoThumbnailsSprite w.img thumbs (Join outDir "thumbs.jpg") pc.width
              pc.height rows cols with
          | failed => simp [h3] at hr
          | panicked => simp [h3] at hr
          | ok res =>
            obtain ⟨vts, draws⟩ := res
            simp only [h3, Outcome.ok.injEq] at hr
            subst hr
            exact ⟨by simpa using hm, rfl⟩
    · simp [hc] at hr

/-- C12. Evaluation of `GenVideoPreview` when the extraction ends without error
and leaves no frame: the frame list is empty, the cover index `0 / 2 = 0` is
not an index of it, and the call ends in an index-out-of-range panic, neither
with a preview nor with an error. -/
theorem GenVideoPreview_empty_frames_panics (duration : Int) (path outDir : String)
    (pc : PreviewConfig) :
    videoThumbnails noFrameWorld path (Join outDir "thumbs") (fpsString duration pc) pc.cW pc.cH
      = some [] ∧
    ([] : List String)[([] : List String).length / 2]? = none ∧
    GenVideoPreview noFrameWorld duration path outDir pc = .panicked := by
  have h : videoThumbnails noFrameWorld path (Join outDir "thumbs") (fpsString duration pc)
      pc.cW pc.cH = some [] := rfl
  exact ⟨h, rfl, GenVideoPreview_no_frames noFrameWorld duration path outDir pc h⟩

/-! ## Totality of the progress decoding -/

/-- C13. Evaluation of `Collect` on three lines, for every collector: the bare
keys `speed` and `out_time_ms` end in an index-out-of-range panic at `s[1]`,
and `speed=` ends in a slice-bounds panic at `ss[:len(ss)-1]`; a handler with
an armed source that reads such a line ends in the same panic. -/
theorem Collect_panics_on_short_lines (fm : Float64Model) (p : progressCollector fm)
    (σ : Type) (src : ProgressSource fm σ) (obs : σ) :
    Collect fm p "speed" = none ∧
    Collect fm p "out_time_ms" = none ∧
    Collect fm p "speed=" = none ∧
    progressFn fm (some src) [("speed=", false)] obs = none :=
  ⟨rfl, rfl, rfl, rfl⟩

theorem parseSpeed_eq_none_iff (fm : Float64Model) (ss : String) :
    parseSpeed fm ss = none ↔ ss.toList = [] := by
  unfold parseSpeed
  cases h : ss.toList.getLast? with
  | none =>
    have : ss.toList = [] := List.getLast?_eq_none_iff.mp h
    exact ⟨fun _ => this, fun _ => rfl⟩
  | some c =>
    have hne : ss.toList ≠ [] := by
      intro he
      rw [he] at h
      simp at h
    constructor
    · intro hp
      by_cases hc : c.toNat < 128
      · simp [hc] at hp
      · simp [hc] at hp
    · intro he
      exact absurd he hne

/-- The lines on which `Collect` panics: a line whose key is `out_time_ms` or
`speed` and that has no `=`, and a `speed` line whose value is empty once
white space is trimmed. -/
theorem Collect_eq_none_iff (fm : Float64Model) (p : progressCollector fm) (kv : String) :
    Collect fm p kv = none ↔
      ((lineKey kv = "out_time_ms" ∨ lineKey kv = "speed") ∧ (Split kv).get? 1 = none) ∨
      (lineKey kv = "speed" ∧ ∃ v, (Split kv).get? 1 = some v ∧ (TrimSpace v).toList = []) := by
  have hkey : (Split kv).headD "" = lineKey kv := Split_head kv
  have hne : ("speed" : String) ≠ "out_time_ms" := by decide
  by_cases h1 : lineKey kv = "out_time_ms"
  · have h2 : ¬ lineKey kv = "speed" := by rw [h1]; exact fun h => hne h.symm
    cases hv : (Split kv).get? 1 with
    | none =>
      have hC : Collect fm p kv = none := by
        unfold Collect
        simp only [hkey, h1, if_true, hv]
      exact ⟨fun _ => Or.inl ⟨Or.inl h1, rfl⟩, fun _ => hC⟩
    | some v =>
      have hC : Collect fm p kv ≠ none := by
        unfold Collect
        simp only [hkey, h1, if_true, hv]
        cases ParseInt (TrimSpace v) <;> exact fun h => Option.noConfusion h
      constructor
      · intro h
        exact absurd h hC
      · rintro (⟨_, hc⟩ | ⟨hs, _⟩)
        · exact Option.noConfusion hc
        · exact absurd hs h2
  · by_cases h2 : lineKey kv = "speed"
    · cases hv : (Split kv).get? 1 with
      | none =>
        have hC : Collect fm p kv = none := by
          unfold Collect
          simp only [hkey, h2, hv, if_neg hne, if_true]
        exact ⟨fun _ => Or.inl ⟨Or.inr h2, rfl⟩, fun _ => hC⟩
      | some v =>
        have hC : Collect fm p kv = none ↔ parseSpeed fm (TrimSpace v) = none := by
          unfold Collect
          simp only [hkey, h2, hv, if_neg hne, if_true]
          cases parseSpeed fm (TrimSpace v) with
          | none => exact ⟨fun _ => rfl, fun _ => rfl⟩
          | some r =>
            cases r <;>
              exact ⟨fun h => Option.noConfusion h, fun h => Option.noConfusion h⟩
        rw [hC, parseSpeed_eq_none_iff]
        constructor
        · intro he
          exact Or.inr ⟨h2, v, rfl, he⟩
        · rintro (⟨_, hc⟩ | ⟨_, v', hv', he⟩)
          · exact Option.noConfusion hc
          · have : v' = v := (Option.some.inj hv').symm
            rw [this] at he
            exact he
    · have hC : Collect fm p kv ≠ none := by
        unfold Collect
        simp only [hkey, h1, h2, if_false]
        by_cases h3 : lineKey kv = "progress"
        · simp [h3]
        · simp [h3]
      constructor
      · intro h
        exact absurd h hC
      · rintro (⟨hk | hk, _⟩ | ⟨hs, _⟩)
        · exact absurd hk h1
        · exact absurd hk h2
        · exact absurd hs h2

/-- `Collect` panics on a line exactly when the line is not safe: the
hypothesis of the decoding theorem leaves out the panicking lines and no
others. -/
theorem Collect_eq_none_iff_not_safe (fm : Float64Model) (p : progressCollector fm)
    (kv : String) : Collect fm p kv = none ↔ ¬ SafeLine kv := by
  constructor
  · intro h hs
    obtain ⟨p', hC, _⟩ := Collect_safe fm p kv hs
    rw [hC] at h
    exact Option.noConfusion h
  · intro hns
    rw [Collect_eq_none_iff]
    by_cases hk : lineKey kv = "out_time_ms" ∨ lineKey kv = "speed"
    · by_cases he : '=' ∈ kv.toList
      · have hnot : ¬ (lineKey kv = "speed" → (lineValue kv).toList ≠ []) :=
          fun h2 => hns ⟨fun _ => he, h2⟩
        have hs : lineKey kv = "speed" := by
          by_contra hc
          exact hnot (fun h => absurd h hc)
        have hv : (lineValue kv).toList = [] := by
          by_contra hc
          exact hnot (fun _ => hc)
        exact Or.inr ⟨hs, _, by rw [Split_second, if_pos he], hv⟩
      · exact Or.inl ⟨hk, by rw [Split_second, if_neg he]⟩
    · exact absurd ⟨fun h => absurd h hk, fun h => absurd (Or.inr h) hk⟩ hns

/-- An `out_time_ms` value of at most 9223372036854775 microseconds in absolute
value is held exactly. -/
theorem outTime_exact (ot : Int) (h0 : -9223372036854775 ≤ ot) (h1 : ot ≤ 9223372036854775) :
    mul64 ot Microsecond = ot * Microsecond := by
  unfold mul64 Microsecond
  apply wrap64_of_range <;> omega

end Night
